import Mathlib

/-!
Verification of the Techstore query-time pipeline
(`ingestion/search_service.py`, `ingestion/response_templates.py`).

Strings are modelled as `List Char`.  Python `unicodedata` operations
(NFC / NFKD normalization, combining-class test) and `str.lower` are
modelled by explicit finite tables covering a representative fragment of
the Unicode data (the Latin letters with diacritics that occur in this
repository's text); characters outside the tables decompose to
themselves, have combining class 0, and lower-case via the ASCII table.
IEEE floats (prices, scores, parsed weights) are modelled by exact
rationals; the claims under study do not depend on rounding behaviour.
-/

namespace Techstore

abbrev Str := List Char

/-- Substring test: Python's `needle in haystack`. -/
def containsSub (needle hay : Str) : Bool :=
  (List.range (hay.length + 1)).any (fun i => needle.isPrefixOf (hay.drop i))

theorem containsSub_nil (hay : Str) : containsSub [] hay = true := by
  unfold containsSub
  apply List.any_eq_true.mpr
  exact ⟨0, by simp [List.mem_range], by simp [List.isPrefixOf]⟩

/-- A slice `(hay.drop a).take k` is always a substring of `hay`. -/
theorem containsSub_slice (hay : Str) (a k : Nat) :
    containsSub ((hay.drop a).take k) hay = true := by
  rcases le_or_lt a hay.length with h | h
  · unfold containsSub
    apply List.any_eq_true.mpr
    refine ⟨a, by simp [List.mem_range]; omega, ?_⟩
    exact List.isPrefixOf_iff_prefix.mpr ( List.take_prefix _ _)
  · have : hay.drop a = [] := List.drop_eq_nil_of_le (le_of_lt h)
    rw [this]
    simp [containsSub_nil]

/-! ## Unicode model -/

/-- Combining marks used by the decomposition table (a fragment of the
characters with non-zero combining class). -/
def combMarks : List Char :=
  ['̀', '́', '̂', '̃', '̆', '̉', '̛', '̣']

/-- Model of `unicodedata.combining(c) != 0`. -/
def pyCombining (c : Char) : Bool := combMarks.contains c

/-- Fragment of the canonical (NFKD) decomposition data: precomposed
Latin letters with diacritics, both cases.  `đ`/`Đ` have no
decomposition in Unicode and are deliberately absent. -/
def nfkdTable : List (Char × Str) :=
  [ ('À', ['A', '̀']), ('Á', ['A', '́']), ('Ã', ['A', '̃']),
    ('Ả', ['A', '̉']), ('Ạ', ['A', '̣']), ('Â', ['A', '̂']),
    ('È', ['E', '̀']), ('É', ['E', '́']), ('Ẹ', ['E', '̣']),
    ('Ê', ['E', '̂']), ('Ì', ['I', '̀']), ('Í', ['I', '́']),
    ('Ò', ['O', '̀']), ('Ó', ['O', '́']), ('Õ', ['O', '̃']),
    ('Ọ', ['O', '̣']), ('Ô', ['O', '̂']), ('Ơ', ['O', '̛']),
    ('Ù', ['U', '̀']), ('Ú', ['U', '́']), ('Ư', ['U', '̛']),
    ('Ý', ['Y', '́']),
    ('à', ['a', '̀']), ('á', ['a', '́']), ('ã', ['a', '̃']),
    ('ả', ['a', '̉']), ('ạ', ['a', '̣']), ('â', ['a', '̂']),
    ('è', ['e', '̀']), ('é', ['e', '́']), ('ẹ', ['e', '̣']),
    ('ê', ['e', '̂']), ('ì', ['i', '̀']), ('í', ['i', '́']),
    ('ò', ['o', '̀']), ('ó', ['o', '́']), ('õ', ['o', '̃']),
    ('ọ', ['o', '̣']), ('ô', ['o', '̂']), ('ơ', ['o', '̛']),
    ('ù', ['u', '̀']), ('ú', ['u', '́']), ('ư', ['u', '̛']),
    ('ý', ['y', '́']),
    ('ấ', ['a', '̂', '́']), ('ầ', ['a', '̂', '̀']),
    ('ế', ['e', '̂', '́']), ('ề', ['e', '̂', '̀']),
    ('ố', ['o', '̂', '́']), ('ồ', ['o', '̂', '̀']),
    ('ớ', ['o', '̛', '́']), ('ờ', ['o', '̛', '̀']),
    ('ứ', ['u', '̛', '́']), ('ừ', ['u', '̛', '̀']),
    ('ủ', ['u', '̉']), ('ụ', ['u', '̣']), ('ị', ['i', '̣']),
    ('Ệ', ['E', '̂', '̣']), ('ệ', ['e', '̂', '̣']),
    ('Ậ', ['A', '̂', '̣']), ('ậ', ['a', '̂', '̣']),
    ('Ộ', ['O', '̂', '̣']), ('ộ', ['o', '̂', '̣']),
    ('Ị', ['I', '̣']), ('Ủ', ['U', '̉']), ('Ụ', ['U', '̣']) ]

/-- One character's NFKD decomposition. -/
def nfkdChar (c : Char) : Str :=
  match nfkdTable.lookup c with
  | some d => d
  | none => [c]

/-- Model of `unicodedata.normalize("NFKD", s)` (canonical reordering of
combining marks is omitted; the pipeline discards the marks anyway). -/
def nfkd (s : Str) : Str := s.flatMap nfkdChar

/-- Fragment of the NFC pairwise composition data (base, combining mark)
→ precomposed character, case-symmetric. -/
def composeTable : List ((Char × Char) × Char) :=
  [ (('A', '̀'), 'À'), (('A', '́'), 'Á'), (('A', '̃'), 'Ã'),
    (('E', '̀'), 'È'), (('E', '́'), 'É'),
    (('I', '̀'), 'Ì'), (('I', '́'), 'Í'),
    (('O', '̀'), 'Ò'), (('O', '́'), 'Ó'), (('O', '̃'), 'Õ'),
    (('U', '̀'), 'Ù'), (('U', '́'), 'Ú'),
    (('Y', '́'), 'Ý'),
    (('a', '̀'), 'à'), (('a', '́'), 'á'), (('a', '̃'), 'ã'),
    (('e', '̀'), 'è'), (('e', '́'), 'é'),
    (('i', '̀'), 'ì'), (('i', '́'), 'í'),
    (('o', '̀'), 'ò'), (('o', '́'), 'ó'), (('o', '̃'), 'õ'),
    (('u', '̀'), 'ù'), (('u', '́'), 'ú'),
    (('y', '́'), 'ý') ]

def composePair (a b : Char) : Option Char := composeTable.lookup (a, b)

/-- Model of `unicodedata.normalize("NFC", s)`: compose adjacent
(base, mark) pairs left to right. -/
def nfcRun : Str → Str
  | [] => []
  | [a] => [a]
  | a :: b :: rest =>
    match composePair a b with
    | some c => nfcRun (c :: rest)
    | none => a :: nfcRun (b :: rest)
termination_by s => s.length
decreasing_by all_goals (simp_wf; try omega)

/-- Lower-case mapping for precomposed letters (fragment of the Unicode
simple lowercase data used by Python `str.lower`). -/
def vietLowerTable : List (Char × Char) :=
  [ ('À', 'à'), ('Á', 'á'), ('Ã', 'ã'), ('Ả', 'ả'), ('Ạ', 'ạ'), ('Â', 'â'),
    ('È', 'è'), ('É', 'é'), ('Ẹ', 'ẹ'), ('Ê', 'ê'), ('Ì', 'ì'), ('Í', 'í'),
    ('Ò', 'ò'), ('Ó', 'ó'), ('Õ', 'õ'), ('Ọ', 'ọ'), ('Ô', 'ô'), ('Ơ', 'ơ'),
    ('Ù', 'ù'), ('Ú', 'ú'), ('Ư', 'ư'), ('Ý', 'ý') ]

/-- ASCII lowercase mapping. -/
def asciiLowerTable : List (Char × Char) :=
  [ ('A', 'a'), ('B', 'b'), ('C', 'c'), ('D', 'd'), ('E', 'e'), ('F', 'f'),
    ('G', 'g'), ('H', 'h'), ('I', 'i'), ('J', 'j'), ('K', 'k'), ('L', 'l'),
    ('M', 'm'), ('N', 'n'), ('O', 'o'), ('P', 'p'), ('Q', 'q'), ('R', 'r'),
    ('S', 's'), ('T', 't'), ('U', 'u'), ('V', 'v'), ('W', 'w'), ('X', 'x'),
    ('Y', 'y'), ('Z', 'z') ]

/-- Model of Python `str.lower`, per character. -/
def pyLowerChar (c : Char) : Char :=
  match vietLowerTable.lookup c with
  | some d => d
  | none =>
    match asciiLowerTable.lookup c with
    | some d => d
    | none => c

def pyLower (s : Str) : Str := s.map pyLowerChar

/-- Model of Python `\s` / `str.strip` whitespace. -/
def pyIsSpace (c : Char) : Bool :=
  c = ' ' || c = '\t' || c = '\n' || c = '\r' || c = '\x0b' || c = '\x0c'

/-- Model of `re.sub(r"\s+", " ", s)`: collapse whitespace runs to a
single space. -/
def collapseWs : Str → Str
  | [] => []
  | [c] => if pyIsSpace c then [' '] else [c]
  | a :: b :: rest =>
    if pyIsSpace a && pyIsSpace b then collapseWs (b :: rest)
    else (if pyIsSpace a then ' ' else a) :: collapseWs (b :: rest)

/-- Drop trailing whitespace. -/
def trimEnd : Str → Str
  | [] => []
  | c :: rest =>
    match trimEnd rest with
    | [] => if pyIsSpace c then [] else [c]
    | r => c :: r

/-- Model of Python `str.strip()`. -/
def pyStrip (s : Str) : Str := trimEnd (s.dropWhile pyIsSpace)

/-! ## The two normalizers (`search_service.py` lines 102-113) -/

/-- `normalize_for_embed`: NFC, lower-case, collapse whitespace, strip. -/
def normalize_for_embed (text : Str) : Str :=
  if text = [] then []
  else pyStrip (collapseWs (pyLower (nfcRun text)))

/-- `normalize_for_match`: NFKD, strip combining marks, lower-case.
(The source applies it to `text or ""`; `None` inputs are outside this
model.) -/
def normalize_for_match (text : Str) : Str :=
  pyLower ((nfkd text).filter (fun c => !(pyCombining c)))

/-! ## Regex engine

A small backtracking matcher reproducing the semantics of the `re`
patterns used by the source: leftmost search position first, left
alternative first, greedy quantifiers.  Only the constructs appearing in
the source's patterns are supported.  Capture groups are recorded as
position spans into the subject, so every extracted group is a
contiguous slice of the input by construction. -/

/-- Regex abstract syntax. -/
inductive RE where
  | eps
  | cls (p : Char → Bool)
  | lit (cs : Str)
  | starC (p : Char → Bool)
  | opt (r : RE)
  | alt2 (a b : RE)
  | seq2 (a b : RE)
  | grp (g : Nat) (r : RE)
  | wb

/-- Capture spans: (group number, start, stop). -/
abbrev Caps := List (Nat × Nat × Nat)

/-- Length of the maximal run of characters satisfying `p`. -/
def maxRun (p : Char → Bool) : Str → Nat
  | [] => 0
  | c :: rest => if p c then maxRun p rest + 1 else 0

/-- `\d` -/
def reDigit (c : Char) : Bool := '0' ≤ c && c ≤ '9'
/-- `\D` -/
def reNonDigit (c : Char) : Bool := !(reDigit c)
/-- `\w` (ASCII fragment) -/
def reWord (c : Char) : Bool :=
  ('a' ≤ c && c ≤ 'z') || ('A' ≤ c && c ≤ 'Z') || reDigit c || c = '_'
/-- `[A-Za-z0-9\-]` -/
def reAlnumDash (c : Char) : Bool :=
  ('a' ≤ c && c ≤ 'z') || ('A' ≤ c && c ≤ 'Z') || reDigit c || c = '-'

/-- Word-boundary test at position `i` of `s`. -/
def wordB (s : Str) (i : Nat) : Bool :=
  let pre := match i with
    | 0 => false
    | j + 1 => match s.get? j with | some c => reWord c | none => false
  let post := match s.get? i with | some c => reWord c | none => false
  pre != post

/-- All ways of matching `r` in `s` starting at position `i`, as
(end position, captures) pairs, in backtracking preference order. -/
def mrun : RE → Str → Nat → Caps → List (Nat × Caps)
  | .eps, _, i, caps => [(i, caps)]
  | .cls p, s, i, caps =>
    match s.get? i with
    | some c => if p c then [(i + 1, caps)] else []
    | none => []
  | .lit cs, s, i, caps =>
    if cs.isPrefixOf (s.drop i) then [(i + cs.length, caps)] else []
  | .starC p, s, i, caps =>
    let k := maxRun p (s.drop i)
    (List.range (k + 1)).reverse.map (fun j => (i + j, caps))
  | .opt r, s, i, caps => mrun r s i caps ++ [(i, caps)]
  | .alt2 a b, s, i, caps => mrun a s i caps ++ mrun b s i caps
  | .seq2 a b, s, i, caps =>
    (mrun a s i caps).flatMap (fun e => mrun b s e.1 e.2)
  | .grp g r, s, i, caps =>
    (mrun r s i caps).map (fun e => (e.1, (g, i, e.1) :: e.2))
  | .wb, s, i, caps => if wordB s i then [(i, caps)] else []

/-- Sequence of several regexes. -/
def reSeq (rs : List RE) : RE := rs.foldr RE.seq2 .eps

/-- Ordered alternation of several regexes. -/
def reAlt : List RE → RE
  | [] => .eps
  | [r] => r
  | r :: rest => .alt2 r (reAlt rest)

/-- Model of `re.search`: first match in preference order, as
(start, end, captures). -/
def research (r : RE) (s : Str) : Option (Nat × Nat × Caps) :=
  (List.range (s.length + 1)).findSome? (fun i =>
    match mrun r s i [] with
    | [] => none
    | e :: _ => some (i, e.1, e.2))

/-- The slice of `s` between positions `a` and `b`. -/
def regroup (s : Str) (a b : Nat) : Str := (s.drop a).take (b - a)

/-- `m.group(0)` of `re.search(r, s)`. -/
def reWhole (r : RE) (s : Str) : Option Str :=
  (research r s).map (fun m => regroup s m.1 m.2.1)

/-- `m.group(g)` of `re.search(r, s)`. -/
def reGroup (r : RE) (s : Str) (g : Nat) : Option Str :=
  (research r s).bind (fun m => (m.2.2.lookup g).map (fun sp => regroup s sp.1 sp.2))

/-- `re.search(r, s, re.IGNORECASE)` is modelled by matching the
lower-cased subject (pattern literals are written lower-case); captured
slices are taken from the original subject at the same positions. -/
def reWholeCI (r : RE) (s : Str) : Option Str :=
  (research r (pyLower s)).map (fun m => regroup s m.1 m.2.1)

def reGroupCI (r : RE) (s : Str) (g : Nat) : Option Str :=
  (research r (pyLower s)).bind (fun m => (m.2.2.lookup g).map (fun sp => regroup s sp.1 sp.2))

/-- `re.search(r, s) is not None`. -/
def reTest (r : RE) (s : Str) : Bool := (research r s).isSome

/-! ## Patterns of `response_templates.py` (used with `re.IGNORECASE`,
so literals are written lower-case) and of `filter_results` (applied to
already lower-cased text, no flag). -/

/-- `\d+` -/
def reDigits : RE := .seq2 (.cls reDigit) (.starC reDigit)

/-- `Core\s*i\d+[A-Za-z0-9\-]*|Ryzen\s*\d+[A-Za-z0-9\-]*|M\d+(?:\s*Pro|\s*Max)?|Apple\s*M\d+` -/
def cpuRE : RE := reAlt
  [ reSeq [.lit "core".toList, .starC pyIsSpace, .lit "i".toList, reDigits, .starC reAlnumDash],
    reSeq [.lit "ryzen".toList, .starC pyIsSpace, reDigits, .starC reAlnumDash],
    reSeq [.lit "m".toList, reDigits,
      .opt (.alt2 (reSeq [.starC pyIsSpace, .lit "pro".toList])
                  (reSeq [.starC pyIsSpace, .lit "max".toList]))],
    reSeq [.lit "apple".toList, .starC pyIsSpace, .lit "m".toList, reDigits] ]

/-- `RTX\s*\d+\w*|GTX\s*\d+|Radeon\s*RX\s*\d+\w*|Intel\s*Iris|Iris\s*Xe` -/
def gpuRE : RE := reAlt
  [ reSeq [.lit "rtx".toList, .starC pyIsSpace, reDigits, .starC reWord],
    reSeq [.lit "gtx".toList, .starC pyIsSpace, reDigits],
    reSeq [.lit "radeon".toList, .starC pyIsSpace, .lit "rx".toList, .starC pyIsSpace,
           reDigits, .starC reWord],
    reSeq [.lit "intel".toList, .starC pyIsSpace, .lit "iris".toList],
    reSeq [.lit "iris".toList, .starC pyIsSpace, .lit "xe".toList] ]

/-- `(\d+\s?GB)\s*RAM` -/
def ramRE1 : RE :=
  reSeq [.grp 1 (reSeq [reDigits, .opt (.cls pyIsSpace), .lit "gb".toList]),
         .starC pyIsSpace, .lit "ram".toList]

/-- `(\d+\s?GB)\b` -/
def ramRE2 : RE :=
  reSeq [.grp 1 (reSeq [reDigits, .opt (.cls pyIsSpace), .lit "gb".toList]), .wb]

/-- `(\d+\s?GB|\d+\s?TB)\s*(SSD|HDD|NVMe)?` -/
def storageRE : RE :=
  reSeq [.grp 1 (.alt2 (reSeq [reDigits, .opt (.cls pyIsSpace), .lit "gb".toList])
                       (reSeq [reDigits, .opt (.cls pyIsSpace), .lit "tb".toList])),
         .starC pyIsSpace,
         .opt (.grp 2 (reAlt [.lit "ssd".toList, .lit "hdd".toList, .lit "nvme".toList]))]

/-- `(\d{3,5})\s?mAh` -/
def batteryRE : RE :=
  reSeq [.grp 1 (reSeq [.cls reDigit, .cls reDigit, .cls reDigit,
                        .opt (.cls reDigit), .opt (.cls reDigit)]),
         .opt (.cls pyIsSpace), .lit "mah".toList]

/-- `(\d+\.?\d*)\s?kg` -/
def weightRE : RE :=
  reSeq [.grp 1 (reSeq [reDigits, .opt (.lit ".".toList), .starC reDigit]),
         .opt (.cls pyIsSpace), .lit "kg".toList]

/-- `\d{2}(?:\.\d)?` -/
def screenNum : RE :=
  reSeq [.cls reDigit, .cls reDigit, .opt (.seq2 (.lit ".".toList) (.cls reDigit))]

/-- `(\d{2}(?:\.\d)?)-?inch|(\d{2}(?:\.\d)?)\s?inch` -/
def screenRE : RE :=
  .alt2 (reSeq [.grp 1 screenNum, .opt (.lit "-".toList), .lit "inch".toList])
        (reSeq [.grp 2 screenNum, .opt (.cls pyIsSpace), .lit "inch".toList])

/-- `weight\D*(\d+\.?\d*)\s*kg` (`filter_results`, OFFICE branch). -/
def officeWeightRE : RE :=
  reSeq [.lit "weight".toList, .starC reNonDigit,
         .grp 1 (reSeq [reDigits, .opt (.lit ".".toList), .starC reDigit]),
         .starC pyIsSpace, .lit "kg".toList]

/-- `\b\d{4,6}\s?mah\b` (phone battery signal). -/
def mahRE : RE :=
  reSeq [.wb, .cls reDigit, .cls reDigit, .cls reDigit, .cls reDigit,
         .opt (.cls reDigit), .opt (.cls reDigit),
         .opt (.cls pyIsSpace), .lit "mah".toList, .wb]

/-- `\b\d{1,3}\s?mp\b` (camera megapixel signal). -/
def mpRE : RE :=
  reSeq [.wb, .cls reDigit, .opt (.cls reDigit), .opt (.cls reDigit),
         .opt (.cls pyIsSpace), .lit "mp".toList, .wb]

/-! ## Spec extractor (`response_templates.py`, `extract_specs`) -/

structure ExtractedSpecs where
  cpu : Str
  gpu : Str
  ram : Option Str
  storage : Option Str
  battery : Option Str
  weight : Option Str
  screen : Option Str
deriving DecidableEq, Repr

def cpuDefault : Str := "CPU hiệu năng cao".toList
def gpuDefault : Str := "Card đồ họa rời".toList

/-- `extract_specs`: best-effort regex extraction.  `cpu` and `gpu`
start from fabricated defaults; the remaining fields are `None` until a
pattern matches. -/
def extract_specs (spec_text : Str) : ExtractedSpecs :=
  if spec_text = [] then
    ⟨cpuDefault, gpuDefault, none, none, none, none, none⟩
  else
    { cpu := (reWholeCI cpuRE spec_text).getD cpuDefault
      gpu := (reWholeCI gpuRE spec_text).getD gpuDefault
      -- `re.search(A) or re.search(B)`, then `.group(1)`
      ram := match reGroupCI ramRE1 spec_text 1 with
             | some t => some t
             | none => reGroupCI ramRE2 spec_text 1
      storage := reWholeCI storageRE spec_text
      battery := (reGroupCI batteryRE spec_text 1).map (fun t => t ++ " mAh".toList)
      weight := (reGroupCI weightRE spec_text 1).map (fun t => t ++ " kg".toList)
      -- `val = m.group(1) or m.group(2)`
      screen :=
        match research screenRE (pyLower spec_text) with
        | none => none
        | some m =>
          match m.2.2.lookup 1 with
          | some sp => some (regroup spec_text sp.1 sp.2 ++ " inch".toList)
          | none =>
            match m.2.2.lookup 2 with
            | some sp => some (regroup spec_text sp.1 sp.2 ++ " inch".toList)
            | none => none }

/-! ## Data model (`search_service.py`) -/

/-- One retrieved candidate (`SearchResult` pydantic model).  The opaque
`metadata` bag is omitted: no pipeline logic reads it.  Floats are
modelled by rationals. -/
structure SearchResult where
  id : Str
  product_id : Option Int := none
  chunk_index : Option Int := none
  score : Option ℚ := none
  cross_score : Option ℚ := none
  name : Option Str := none
  brand : Option Str := none
  category_name : Option Str := none
  price : Option ℚ := none
  image_url : Option Str := none
  document : Option Str := none
  use_case : Option Str := none
  usp : Option Str := none
  spec_text : Option Str := none
deriving DecidableEq, Repr

/-- Environment configuration (`ENABLE_RERANK`, `RERANK_POOL`). -/
structure Config where
  enableRerank : Bool
  rerankPool : Int

structure SearchRequest where
  query : Str
  top_k : Int

structure SearchResponse where
  success : Bool
  results : List SearchResult

structure ChatRequest where
  query : Str
  top_k : Int

structure ChatResponse where
  answer : Str
  context : List SearchResult
deriving DecidableEq, Repr

/-- Python truthiness of an optional number (`None` and `0` are falsy). -/
def pyTruthyQ (o : Option ℚ) : Bool :=
  match o with
  | some x => !(x = 0)
  | none => false

/-- Python `a or b` for an optional string (`None` and `""` are falsy). -/
def pyOrStr (o : Option Str) (d : Str) : Str :=
  match o with
  | some t => if t = [] then d else t
  | none => d

def kws (l : List String) : List Str := l.map String.toList

/-- `any(k in text for k in keywords)`. -/
def hasAny (keywords : List Str) (text : Str) : Bool :=
  keywords.any (fun k => containsSub k text)

/-! ## Answer composer (`response_templates.py`) -/

def chunk3 : Str → Str
  | a :: b :: c :: d :: rest => a :: b :: c :: ',' :: chunk3 (d :: rest)
  | l => l
termination_by l => l.length
decreasing_by all_goals (simp_wf; try omega)

def formatThousands (n : Nat) : Str := (chunk3 (Nat.repr n).toList.reverse).reverse

/-- `format_currency`: `f"{amount:,.0f} VNĐ"` with a contact-us fallback
for falsy amounts (the float format-spec rounding is modelled by
`round`). -/
def format_currency (amount : Option ℚ) : Str :=
  if pyTruthyQ amount = false then "Liên hệ để biết giá".toList
  else formatThousands (round ((amount.getD 0))).toNat ++ " VNĐ".toList

def noResultIntentAnswer (intent : String) : Str :=
  "Dạ, em rất tiếc nhưng hiện tại em không tìm thấy sản phẩm nào thuộc nhóm ".toList
    ++ pyLower intent.toList ++ " phù hợp với yêu cầu của anh/chị ạ.".toList

def noResultGenericTemplate : Str :=
  "Dạ, em rất tiếc nhưng hiện tại em không tìm thấy sản phẩm nào phù hợp với yêu cầu của anh/chị ạ.".toList

/-- `generate_answer_lite`: template-based answer keyed by (intent,
verbosity).  `", ".join` over names assumes present names, as the
source would raise `TypeError` on a missing one. -/
def generate_answer_lite (results : List SearchResult) (intent : String) (verbose : Bool) : Str :=
  match results with
  | [] =>
    if intent ≠ "GENERAL" then noResultIntentAnswer intent
    else noResultGenericTemplate
  | best :: rest =>
    let price_str := format_currency best.price
    let specs := extract_specs (best.spec_text.getD [])
    let product_line := best.name.getD []
    let price_line :=
      if pyTruthyQ best.price then "Giá: ".toList ++ price_str else "Giá: Liên hệ".toList
    let answer :=
      if intent = "GAMING" then
        if verbose then
          "Dạ, em đề xuất ".toList ++ product_line ++ ". Cấu hình có ".toList ++ specs.cpu
            ++ ", ".toList ++ specs.gpu ++ ". ".toList ++ price_line
            ++ ". Chi tiết: RAM ".toList ++ pyOrStr specs.ram "N/A".toList
            ++ ", Storage ".toList ++ pyOrStr specs.storage "N/A".toList ++ ".".toList
        else
          "Dạ, ".toList ++ product_line ++ " phù hợp cho chơi game. ".toList ++ price_line ++ ".".toList
      else if intent = "OFFICE" then
        if verbose then
          "Dạ, ".toList ++ product_line ++ " phù hợp cho công việc văn phòng: trọng lượng ".toList
            ++ pyOrStr specs.weight "nhẹ".toList ++ ", màn hình ".toList
            ++ pyOrStr specs.screen "kích thước phù hợp".toList ++ ". ".toList ++ price_line ++ ".".toList
        else
          "Dạ, ".toList ++ product_line ++ " phù hợp cho văn phòng. ".toList ++ price_line ++ ".".toList
      else if intent = "CAMERA" then
        "Dạ, ".toList ++ product_line ++ " có thông số camera tốt. ".toList ++ price_line ++ ".".toList
      else if intent = "BATTERY" then
        "Dạ, ".toList ++ product_line ++ " có pin khoảng ".toList
          ++ pyOrStr specs.battery "không rõ".toList ++ ". ".toList ++ price_line ++ ".".toList
      else
        if verbose then
          "Dạ, em thấy ".toList ++ product_line ++ ". ".toList ++ price_line
            ++ ". Thông số chính: CPU ".toList ++ specs.cpu
            ++ ", RAM ".toList ++ pyOrStr specs.ram "N/A".toList
            ++ ", Storage ".toList ++ pyOrStr specs.storage "N/A".toList ++ ".".toList
        else
          "Dạ, ".toList ++ product_line ++ " là lựa chọn phù hợp. ".toList ++ price_line ++ ".".toList
    let answer :=
      if !verbose && !(best.usp.getD [] = []) then
        answer ++ " Điểm nổi bật: ".toList ++ best.usp.getD [] ++ ".".toList
      else answer
    let answer :=
      if rest ≠ [] then
        answer ++ " Ngoài ra có: ".toList
          ++ List.intercalate ", ".toList ((rest.take 2).map (fun r => r.name.getD []))
          ++ ".".toList
      else answer
    if !verbose then answer ++ " Anh/chị có muốn xem chi tiết thông số không ạ?".toList
    else answer

/-! ## Out-of-domain guardrail (`is_out_of_domain`) -/

/-- The ordered (label, keyword list) groups.  The `OOD_EXTRA`
environment extension is modelled as empty (its default). -/
def oodGroups : List (String × List Str) :=
  [ ("xe cộ", kws ["oto", "o to", "xe hoi", "xe may", "xe may dien", "motor", "motorbike",
      "xe mo to", "scooter", "xe tay ga", "xe so", "xe tai", "truck", "bus", "xe khach",
      "xe dap", "bicycle", "car", "vehicle"]),
    ("bất động sản", kws ["bat dong san", "nha dat", "can ho", "chung cu", "biet thu", "dat nen"]),
    ("thời trang", kws ["quan ao", "thoi trang", "giay dep", "giay sneaker", "ao", "quan",
      "vay", "tui xach"]) ]

/-- `is_out_of_domain`: label of the first group with a keyword present
in the match-normalized query, else `None`. -/
def is_out_of_domain (query : Str) : Option String :=
  let q := normalize_for_match query
  (oodGroups.find? (fun g => hasAny g.2 q)).map Prod.fst

/-! ## Intent classifier (`detect_intent`) -/

def gaming_keywords : List Str := kws
  ["game", "gaming", "choi game", "do hoa", "nang", "lol", "pubg", "valorant", "gta",
   "render", "fps", "rtx", "gtx"]

/-- The source's ordered chain of keyword checks, as a rule table; the
first rule with a match wins. -/
def intentRules : List (String × List Str) :=
  [ ("GAMING", gaming_keywords),
    ("OFFICE", kws ["van phong", "mong nhe", "sinh vien", "nhe", "di dong", "word", "excel", "office"]),
    ("PHONE", kws ["dien thoai", "smartphone", "phone", "mobile", "android", "ios",
       "iphone", "samsung", "galaxy", "pixel", "oppo", "xiaomi",
       "realme", "vivo", "nokia", "chup anh", "selfie"]),
    ("TABLET", kws ["may tinh bang", "tablet", "ipad", "tab"]),
    ("ACCESSORY", kws ["phu kien", "accessory", "tai nghe", "headphone", "earbuds", "loa",
       "ban phim", "keyboard", "sac", "charger", "cap", "cable", "chuot", "mouse",
       "pin du phong", "power bank"]),
    ("LAPTOP", kws ["laptop", "may tinh xach tay", "notebook", "ultrabook", "macbook",
       "dell", "asus", "lenovo", "hp", "msi", "acer"]),
    ("CAMERA", kws ["camera", "chup anh", "zoom", "camera truoc", "camera sau"]),
    ("BATTERY", kws ["pin", "mah", "thoi luong pin", "pin khoe"]),
    ("DISPLAY", kws ["man hinh", "screen", "do phan giai", "oled", "lcd", "amoled"]),
    ("STORAGE", kws ["ocung", "ssd", "hdd", "gb", "tb", "bo nho"]),
    ("BUSINESS", kws ["doanh nghiep", "business", "quan li", "server"]) ]

def intentLabels : List String :=
  ["GAMING", "OFFICE", "PHONE", "TABLET", "ACCESSORY", "LAPTOP", "CAMERA",
   "BATTERY", "DISPLAY", "STORAGE", "BUSINESS", "GENERAL"]

/-- `detect_intent`: first matching rule's label, else GENERAL. -/
def detect_intent (query : Str) : String :=
  let q := normalize_for_match query
  match intentRules.find? (fun rule => hasAny rule.2 q) with
  | some rule => rule.1
  | none => "GENERAL"

/-! ## Search endpoint (`search`) -/

/-- The candidate pool size requested from the vector store
(`search_service.py` lines 370-372). -/
def poolSize (cfg : Config) (top_k : Int) : Int :=
  if cfg.enableRerank then
    (if cfg.rerankPool > 0 then cfg.rerankPool else min (top_k * 2) 50)
  else top_k

def rerankKey (r : SearchResult) : ℚ := r.cross_score.getD (-1)

/-- Stable descending insertion by key (Python `list.sort(key=...,
reverse=True)` is a stable descending sort). -/
def insDesc (key : SearchResult → ℚ) (x : SearchResult) : List SearchResult → List SearchResult
  | [] => [x]
  | y :: ys => if key y < key x then x :: y :: ys else y :: insDesc key x ys

def sortDesc (key : SearchResult → ℚ) : List SearchResult → List SearchResult
  | [] => []
  | x :: xs => insDesc key x (sortDesc key xs)

/-- The `/search` endpoint.  `embed` is the query embedder, `store` the
vector-store nearest-neighbour query (the parsing of the raw store
response into `SearchResult` rows, including the `1 - distance`
similarity conversion, is abstracted into `store`), `cross` the
optional cross-encoder.  Backend exceptions surface as HTTP status
errors; the reranker's per-call exception fallback path is not taken in
this model (the scorer is total). -/
def search (cfg : Config) (embed : Str → List ℚ)
    (store : List ℚ → Int → List SearchResult)
    (cross : Option (Str → Str → ℚ)) (req : SearchRequest) :
    Except Nat SearchResponse :=
  let q := pyStrip req.query
  if q = [] then .error 400
  else
    let q_emb := embed (normalize_for_embed q)
    let pool_size := poolSize cfg req.top_k
    let interim := store q_emb pool_size
    let interim2 :=
      if cfg.enableRerank then
        match cross with
        | some ce =>
          if interim = [] then interim
          else
            sortDesc rerankKey (interim.map (fun r =>
              { r with cross_score := some (ce q (pyOrStr r.document (pyOrStr r.name []))) }))
        | none => interim
      else interim
    .ok { success := true, results := interim2.take req.top_k.toNat }

/-! ## Intent filter (`filter_results`) -/

def digitsToNat (ds : Str) : Nat := ds.foldl (fun acc c => acc * 10 + (c.toNat - 48)) 0

/-- Value of a decimal numeral `\d+\.?\d*` (Python `float(...)`,
modelled exactly; `float` cannot raise on strings of this shape, so the
source's `ValueError` branch is dead). -/
def parseDec (cs : Str) : ℚ :=
  let ip := cs.takeWhile (fun c => c ≠ '.')
  let fp := (cs.dropWhile (fun c => c ≠ '.')).drop 1
  mkRat (digitsToNat ip * 10 ^ fp.length + digitsToNat fp) (10 ^ fp.length)

def laptopCats : List Str := kws ["laptop", "may tinh xach tay", "notebook", "ultrabook", "macbook"]

/-- The per-candidate admissibility predicate of `filter_results`.  The
source computes `q_lower = query.lower()` but never uses it, so the
predicate depends only on the intent and the candidate. -/
def filterPred (intent : String) (r : SearchResult) : Bool :=
  let spec_text := normalize_for_match (r.spec_text.getD [])
  let cat_name := normalize_for_match (r.category_name.getD [])
  let name := normalize_for_match (r.name.getD [])
  if intent = "PHONE" then
    let cat_ok := hasAny (kws ["dien thoai", "smartphone", "phone", "mobile"]) cat_name
    let brand_ok := hasAny (kws ["iphone", "samsung", "galaxy", "pixel", "oppo", "xiaomi",
        "vivo", "realme", "nokia"]) name || hasAny (kws ["android", "ios"]) spec_text
    let signal_ok := hasAny (kws ["sim", "lte", "5g", "gsm"]) spec_text
        || reTest mahRE spec_text || reTest mpRE spec_text
    cat_ok || (brand_ok && signal_ok)
  else if intent = "TABLET" then
    hasAny (kws ["may tinh bang", "tablet", "ipad", "tab"]) cat_name
  else if intent = "ACCESSORY" then
    hasAny (kws ["phu kien", "accessory", "chuot", "mouse", "tai nghe", "ban phim", "loa"]) cat_name
  else if intent = "LAPTOP" then
    hasAny laptopCats cat_name
  else if intent = "GAMING" then
    hasAny laptopCats cat_name &&
      (hasAny (kws ["rtx", "gtx", "radeon", "geforce", "nvidia", "amd rx", "discrete"]) spec_text
       || (containsSub "gaming".toList name
           || hasAny (kws ["legion", "strix", "tuf gaming", "nitro", "omen", "predator", "aorus"]) name))
  else if intent = "OFFICE" then
    hasAny laptopCats cat_name
      && !(containsSub "gaming".toList name || containsSub "gaming".toList cat_name)
      && (match reGroup officeWeightRE spec_text 1 with
          | some w => !(2 ≤ parseDec w)
          | none => true)
  else true

/-- `filter_results`: keep the candidates passing the intent predicate,
in order. -/
def filter_results (query : Str) (results : List SearchResult) (intent : String) :
    List SearchResult :=
  results.filter (filterPred intent)

/-! ## Backfill (second pass inside `chat`) -/

/-- `is_phone_candidate` (defined inside `chat`): note it lower-cases
before NFKD-stripping, unlike `normalize_for_match`. -/
def isPhoneCandidate (n c s : Str) : Bool :=
  let nn := pyLower n
  let cc := (nfkd (pyLower c)).filter (fun ch => !(pyCombining ch))
  let ss := (nfkd (pyLower s)).filter (fun ch => !(pyCombining ch))
  let cat_ok := hasAny (kws ["dien thoai", "smartphone", "phone", "mobile"]) cc
  let brand_ok := hasAny (kws ["iphone", "samsung", "galaxy", "pixel", "oppo", "xiaomi",
      "vivo", "realme", "nokia"]) nn || hasAny (kws ["android", "ios"]) ss
  let signal_ok := hasAny (kws ["sim", "lte", "5g", "gsm"]) ss
      || reTest mahRE ss || reTest mpRE ss
  cat_ok || (brand_ok && signal_ok)

/-- The relaxed predicate used by the backfill pass, when the intent has
one. -/
def backfillPred (intent : String) : Option (SearchResult → Bool) :=
  if intent = "GAMING" then
    some (fun r => hasAny (kws ["gaming", "legion", "strix", "nitro", "omen", "predator"])
      (pyLower (r.name.getD [])))
  else if intent = "PHONE" then
    some (fun r => isPhoneCandidate (r.name.getD []) (r.category_name.getD []) (r.spec_text.getD []))
  else if intent = "OFFICE" then
    some (fun r => hasAny (kws ["laptop", "ultrabook"]) (pyLower (r.category_name.getD [])))
  else none

/-- `add_if`: scan the original pool, appending candidates that pass the
relaxed predicate, skipping already-selected identifiers, until `needed`
slots are filled. -/
def addIf (pred : SearchResult → Bool) :
    List SearchResult → List SearchResult → List Str → Nat → List SearchResult
  | [], acc, _, _ => acc
  | r :: rest, acc, seen, needed =>
    if needed = 0 then acc
    else if seen.contains r.id then addIf pred rest acc seen needed
    else if pred r then addIf pred rest (acc ++ [r]) (r.id :: seen) (needed - 1)
    else addIf pred rest acc seen needed

/-- Steps 2-3 of `chat`: intent filtering, truncation to `top_k`, and
the backfill pass over the original pool. -/
def chatFinal (query : Str) (intent : String) (tkn : Nat) (pool : List SearchResult) :
    List SearchResult :=
  let filtered := filter_results query pool intent
  let final0 := filtered.take tkn
  if final0.length < tkn then
    match backfillPred intent with
    | some pred => addIf pred pool final0 (final0.map (fun r => r.id)) (tkn - final0.length)
    | none => final0
  else final0

theorem chatFinal_nil (query : Str) (intent : String) (tkn : Nat) :
    chatFinal query intent tkn [] = [] := by
  unfold chatFinal
  simp only [filter_results, List.filter_nil, List.take_nil, List.length_nil]
  by_cases h : 0 < tkn
  · rw [if_pos h]
    cases backfillPred intent <;> simp [addIf]
  · rw [if_neg h]

/-- The number of candidates the filter and backfill passes can
supply — the spec's "available-after-backfill": the filtered
candidates plus, when the intent has a relaxed predicate, the
relaxed-eligible pool entries not already among the selected
identifiers. -/
def availableAfterBackfill (query : Str) (intent : String) (tkn : Nat)
    (pool : List SearchResult) : Nat :=
  let filtered := filter_results query pool intent
  let final0 := filtered.take tkn
  match backfillPred intent with
  | none => filtered.length
  | some pred =>
    filtered.length +
      (pool.filter (fun r => pred r && !((final0.map (fun r => r.id)).contains r.id))).length

/-! ## Chat endpoint (`chat`) -/

def oodAnswer (label : String) : Str :=
  "Dạ, hiện tại Techstore không kinh doanh nhóm sản phẩm ".toList ++ label.toList
    ++ ". Anh/chị có thể hỏi giúp em về laptop, điện thoại, máy tính bảng, phụ kiện công nghệ ạ.".toList

/-- The fixed no-result reply of `chat` (`search_service.py` line 645);
it does not depend on the detected intent. -/
def noResultAnswer : Str :=
  "Dạ, em rất tiếc nhưng hiện tại em không tìm thấy sản phẩm nào phù hợp với yêu cầu của anh/chị trong hệ thống ạ.".toList

def verboseTriggers : List Str :=
  kws ["chi tiet", "thong so", "cau hinh", "detail", "spec", "đầy đủ", "mô tả", "mo ta"]

def detect_verbose (query : Str) : Bool :=
  verboseTriggers.any (fun t => containsSub t (pyLower query))

/-- The `/chat` endpoint.  The result also carries the number of
retrieval (embedder + vector store) invocations performed, as
instrumentation for the short-circuit property.  The construction
`SearchRequest(query=..., top_k=initial_pool)` is validated by pydantic
(`min_length=1`, `1 <= top_k <= 20`); a violation raises, surfacing as
an error status. -/
def chat (cfg : Config) (embed : Str → List ℚ)
    (store : List ℚ → Int → List SearchResult)
    (cross : Option (Str → Str → ℚ)) (req : ChatRequest) :
    Except Nat (ChatResponse × Nat) :=
  match is_out_of_domain req.query with
  | some ood => .ok ({ answer := oodAnswer ood, context := [] }, 0)
  | none =>
    let intent := detect_intent req.query
    let initial_pool : Int := max (req.top_k * 4) 20
    if 1 ≤ req.query.length ∧ 1 ≤ initial_pool ∧ initial_pool ≤ 20 then
      match search cfg embed store cross { query := req.query, top_k := initial_pool } with
      | .error e => .error e
      | .ok search_res =>
        let final := chatFinal req.query intent req.top_k.toNat search_res.results
        if final = [] then .ok ({ answer := noResultAnswer, context := [] }, 1)
        else
          .ok ({ answer := generate_answer_lite final intent (detect_verbose req.query),
                 context := final }, 1)
    else .error 422

/-! ## Concrete environments used by witnesses -/

def cfgD : Config := ⟨false, 0⟩

def embZ : Str → List ℚ := fun _ => []

def stZ : List ℚ → Int → List SearchResult := fun _ _ => []

/-! ## Claim C5: the intent filter returns a subsequence -/

/-- Claim C5: for every query, candidate list and intent,
`filter_results` returns a subsequence of its input: its length never
exceeds the input length, every survivor occurs in the input, and the
relative order of survivors is their input order (all three follow from
the sublist relation, stated jointly). -/
theorem filter_results_subsequence (q : Str) (rs : List SearchResult) (intent : String) :
    List.Sublist (filter_results q rs intent) rs ∧
    (filter_results q rs intent).length ≤ rs.length ∧
    (∀ r ∈ filter_results q rs intent, r ∈ rs) := by
  refine ⟨List.filter_sublist rs, (List.filter_sublist rs).length_le, ?_⟩
  intro r hr
  exact List.mem_of_mem_filter hr

/-! ## Claim C7: pool size requested from the vector store -/

/-- Claim C7 counterexample: with reranking enabled and a configured
pool of 3, a request with `top_k = 10` asks the store for 3 candidates,
not `max(top_k, pool) = 10`; and a configured pool of 100 exceeds the
alleged hard ceiling of 50. -/
theorem poolSize_claim_cex :
    poolSize ⟨true, 3⟩ 10 = 3 ∧ (3 : Int) ≠ max 10 3 ∧
    poolSize ⟨true, 100⟩ 5 = 100 ∧ ¬(poolSize ⟨true, 100⟩ 5 ≤ 50) := by
  refine ⟨rfl, by decide, rfl, by decide⟩

/-- Claim C7 (amended): the pool size is `top_k` when reranking is
disabled; when enabled it is the configured `RERANK_POOL` whenever that
is positive (with no relation to `top_k` and no ceiling), and otherwise
`min(top_k * 2, 50)`, which respects the 50 ceiling. -/
theorem poolSize_spec :
    (∀ (p tk : Int), poolSize ⟨false, p⟩ tk = tk) ∧
    (∀ (p tk : Int), 0 < p → poolSize ⟨true, p⟩ tk = p) ∧
    (∀ (p tk : Int), p ≤ 0 →
      poolSize ⟨true, p⟩ tk = min (tk * 2) 50 ∧ poolSize ⟨true, p⟩ tk ≤ 50) := by
  refine ⟨fun p tk => rfl, fun p tk h => ?_, fun p tk h => ?_⟩
  · simp only [poolSize, if_pos h]
    rfl
  · have hng : ¬ (p > 0) := by omega
    simp only [poolSize, if_neg hng]
    exact ⟨rfl, by simp⟩

/-- Witness for C7's amended theorem at concrete configurations. -/
theorem poolSize_spec_witness :
    poolSize ⟨false, 7⟩ 9 = 9 ∧ poolSize ⟨true, 7⟩ 4 = 7 ∧ poolSize ⟨true, 0⟩ 30 ≤ 50 :=
  ⟨poolSize_spec.1 7 9, poolSize_spec.2.1 7 4 (by decide), (poolSize_spec.2.2 0 30 (by decide)).2⟩

/-! ## Claim C6: intent classification -/

/-- Claim C6: `detect_intent` is a pure function into the closed label
set; any query whose match-normalized form contains a gaming keyword
(in particular together with the word "laptop") classifies as GAMING;
and a query matching no rule classifies as GENERAL. -/
theorem detect_intent_spec :
    (∀ q : Str, detect_intent q = detect_intent q ∧ detect_intent q ∈ intentLabels) ∧
    (∀ q : Str, hasAny gaming_keywords (normalize_for_match q) = true →
      containsSub "laptop".toList (normalize_for_match q) = true →
      detect_intent q = "GAMING") ∧
    (∀ q : Str, (∀ rule ∈ intentRules, hasAny rule.2 (normalize_for_match q) = false) →
      detect_intent q = "GENERAL") := by
  refine ⟨?_, ?_, ?_⟩
  · intro q
    refine ⟨rfl, ?_⟩
    simp only [detect_intent]
    cases h : intentRules.find? (fun rule => hasAny rule.2 (normalize_for_match q)) with
    | none => simp [intentLabels]
    | some rule =>
      have hm := List.mem_of_find?_eq_some h
      have hall : ∀ x ∈ intentRules, x.1 ∈ intentLabels := by decide
      simpa using hall rule hm
  · intro q hg _
    have hfind : intentRules.find? (fun rule => hasAny rule.2 (normalize_for_match q)) =
        some ("GAMING", gaming_keywords) := by
      unfold intentRules
      exact List.find?_cons_of_pos _ hg
    simp only [detect_intent, hfind]
  · intro q hnone
    simp only [detect_intent]
    rw [List.find?_eq_none.mpr fun x hx => by simp [hnone x hx]]

/-- Witness for C6 at "gaming laptop" and at a query matching no rule. -/
theorem detect_intent_spec_witness :
    detect_intent "gaming laptop".toList = "GAMING" ∧
    detect_intent "hello".toList = "GENERAL" :=
  ⟨detect_intent_spec.2.1 "gaming laptop".toList (by decide) (by decide),
   detect_intent_spec.2.2 "hello".toList (by decide)⟩

/-! ## Claim C3: out-of-domain guardrail short-circuits chat -/

/-- Claim C3: a query containing a keyword of some out-of-domain group
is detected (the returned label being the first matching group's), and
for any detected query the chat endpoint answers with the apology
naming that label and an empty context, performing zero retrieval
(embedder / vector-store) invocations — the result is the same for
every embedder and store. -/
theorem chat_ood_shortcircuit :
    (∀ (q : Str), ∀ g ∈ oodGroups, hasAny g.2 (normalize_for_match q) = true →
      (is_out_of_domain q).isSome = true) ∧
    (∀ (cfg : Config) (embed : Str → List ℚ) (store : List ℚ → Int → List SearchResult)
       (cross : Option (Str → Str → ℚ)) (q : Str) (tk : Int) (label : String),
      is_out_of_domain q = some label →
      chat cfg embed store cross ⟨q, tk⟩ = .ok ({ answer := oodAnswer label, context := [] }, 0)) := by
  constructor
  · intro q g hg hk
    simp only [is_out_of_domain]
    cases hf : oodGroups.find? (fun g => hasAny g.2 (normalize_for_match q)) with
    | some p => simp
    | none => exact absurd (List.find?_eq_none.mp hf g hg) (by simp [hk])
  · intro cfg embed store cross q tk label h
    simp only [chat, h]

/-- Witness for C3: the query "xe may" (vehicles) short-circuits chat
with the "xe cộ" label, independently of the backends. -/
theorem chat_ood_shortcircuit_witness :
    chat cfgD embZ stZ none ⟨"xe may".toList, 3⟩ =
      .ok ({ answer := oodAnswer "xe cộ", context := [] }, 0) :=
  chat_ood_shortcircuit.2 cfgD embZ stZ none "xe may".toList 3 "xe cộ" (by decide)

/-! ## Claim C1: chat's internal Search request can fail validation -/

/-- Claim C1 is false of the code (code bug): for every in-domain chat
query with `top_k` in [6,10], the internal pool `max(top_k*4, 20)`
exceeds Search's accepted bound of 20, so constructing the internal
`SearchRequest` raises a validation error and chat fails; the pool is a
valid Search input exactly when `top_k <= 5`. -/
theorem chat_internal_pool_validation_bug :
    (∀ (q : Str) (tk : Int) (cfg : Config) (embed : Str → List ℚ)
        (store : List ℚ → Int → List SearchResult) (cross : Option (Str → Str → ℚ)),
      is_out_of_domain q = none → 6 ≤ tk → tk ≤ 10 →
      chat cfg embed store cross ⟨q, tk⟩ = .error 422) ∧
    (∀ tk : Int, 1 ≤ tk → (max (tk * 4) 20 ≤ 20 ↔ tk ≤ 5)) := by
  constructor
  · intro q tk cfg embed store cross hood h6 _
    simp only [chat, hood]
    rw [if_neg]
    intro hc
    have := hc.2.2
    have h24 : (24 : Int) ≤ tk * 4 := by omega
    have hle := le_max_left (tk * 4) 20
    omega
  · intro tk h1
    constructor
    · intro h
      have := le_max_left (tk * 4) 20
      omega
    · intro h
      have : tk * 4 ≤ 20 := by omega
      omega

/-- Witness: chat with the in-domain query "smartphone" and
`top_k = 6` fails with a validation error. -/
theorem chat_internal_pool_validation_bug_witness :
    chat cfgD embZ stZ none ⟨"smartphone".toList, 6⟩ = .error 422 :=
  chat_internal_pool_validation_bug.1 "smartphone".toList 6 cfgD embZ stZ none
    (by decide) (by decide) (by decide)

/-! ## Claim C8: the no-result chat reply -/

/-- Claim C8 counterexample: a chat request with detected intent PHONE
(not GENERAL) and no candidates returns the fixed generic apology,
which does not name the intent (neither "phone" nor "PHONE" occurs in
it), and differs from the intent-naming template that
`generate_answer_lite` would produce for an empty result list. -/
theorem chat_noresult_cex :
    detect_intent "smartphone".toList = "PHONE" ∧
    chat cfgD embZ stZ none ⟨"smartphone".toList, 3⟩ =
      .ok ({ answer := noResultAnswer, context := [] }, 1) ∧
    containsSub "phone".toList (pyLower noResultAnswer) = false ∧
    noResultAnswer ≠ noResultIntentAnswer "PHONE" := by
  refine ⟨by decide, by rfl, by decide, by decide⟩

/-- Claim C8 (amended): when filtering and backfill yield no candidates
(and the request passes validation, i.e. `top_k <= 5`), chat returns an
empty context together with the fixed generic apology — not an error —
but that apology does not name the detected intent; the intent-naming
empty-result template inside `generate_answer_lite` is unreachable from
chat, which only calls it with a non-empty list. -/
theorem chat_noresult_generic :
    ∀ (cfg : Config) (embed : Str → List ℚ) (cross : Option (Str → Str → ℚ))
      (q : Str) (tk : Int),
      is_out_of_domain q = none → detect_intent q ≠ "GENERAL" →
      1 ≤ tk → tk ≤ 5 → 1 ≤ q.length → ¬(pyStrip q = []) →
      chat cfg embed (fun _ _ => []) cross ⟨q, tk⟩ =
        .ok ({ answer := noResultAnswer, context := [] }, 1) := by
  intro cfg embed cross q tk hood _ h1 h5 hq hstrip
  have hcond : 1 ≤ q.length ∧ 1 ≤ max (tk * 4) 20 ∧ max (tk * 4) 20 ≤ 20 := by
    refine ⟨hq, ?_, ?_⟩
    · have := le_max_right (tk * 4) 20
      omega
    · have : tk * 4 ≤ 20 := by omega
      omega
  have hsearch : search cfg embed (fun _ _ => []) cross ⟨q, max (tk * 4) 20⟩ =
      .ok ⟨true, []⟩ := by
    simp only [search]
    rw [if_neg hstrip]
    cases cfg.enableRerank <;> cases cross <;> simp
  simp only [chat, hood]
  rw [if_pos hcond, hsearch]
  dsimp only
  rw [chatFinal_nil]
  simp

/-- Witness for C8's amended theorem: intent PHONE, empty store, chat
returns the generic apology with empty context. -/
theorem chat_noresult_generic_witness :
    chat cfgD embZ (fun _ _ => []) none ⟨"smartphone".toList, 3⟩ =
      .ok ({ answer := noResultAnswer, context := [] }, 1) :=
  chat_noresult_generic cfgD embZ none "smartphone".toList 3
    (by decide) (by decide) (by decide) (by decide) (by decide) (by decide)

/-! ## Claim C2: extracted fields come from the text -/

theorem reWholeCI_sub (r : RE) (s t : Str) (h : reWholeCI r s = some t) :
    containsSub t s = true := by
  unfold reWholeCI at h
  cases hm : research r (pyLower s) with
  | none => rw [hm] at h; exact Option.noConfusion h
  | some m =>
    rw [hm] at h
    injection h with h
    rw [← h]
    exact containsSub_slice s m.1 (m.2.1 - m.1)

theorem reGroupCI_sub (r : RE) (s : Str) (g : Nat) (t : Str)
    (h : reGroupCI r s g = some t) : containsSub t s = true := by
  unfold reGroupCI at h
  cases hm : research r (pyLower s) with
  | none => rw [hm] at h; exact Option.noConfusion h
  | some m =>
    rw [hm] at h
    have h2 : Option.map (fun sp => regroup s sp.1 sp.2) (m.2.2.lookup g) = some t := h
    cases hl : m.2.2.lookup g with
    | none => rw [hl] at h2; exact Option.noConfusion h2
    | some sp =>
      rw [hl] at h2
      injection h2 with h2
      rw [← h2]
      exact containsSub_slice s sp.1 (sp.2 - sp.1)

/-- Claim C2 counterexample: on input "x" (which matches no pattern)
the extractor fabricates the defaults "CPU hiệu năng cao" and "Card đồ
họa rời" for the processor and graphics fields: they are neither absent
nor substrings of the input. -/
theorem extract_specs_default_cex :
    (extract_specs "x".toList).cpu = cpuDefault ∧
    containsSub (extract_specs "x".toList).cpu "x".toList = false ∧
    (extract_specs "x".toList).gpu = gpuDefault ∧
    containsSub (extract_specs "x".toList).gpu "x".toList = false := by
  refine ⟨rfl, by decide, rfl, by decide⟩

/-- Claim C2 (amended): every field other than processor and graphics
is either absent or built from a substring literally matched in the
input (with the unit suffixes " mAh" / " kg" / " inch" the source
appends); the processor and graphics fields instead fall back to fixed
fabricated defaults when their patterns do not match. -/
theorem extract_specs_fields (s : Str) :
    ((extract_specs s).cpu = cpuDefault ∨ containsSub (extract_specs s).cpu s = true) ∧
    ((extract_specs s).gpu = gpuDefault ∨ containsSub (extract_specs s).gpu s = true) ∧
    ((extract_specs s).ram = none ∨
      ∃ t, containsSub t s = true ∧ (extract_specs s).ram = some t) ∧
    ((extract_specs s).storage = none ∨
      ∃ t, containsSub t s = true ∧ (extract_specs s).storage = some t) ∧
    ((extract_specs s).battery = none ∨
      ∃ t, containsSub t s = true ∧ (extract_specs s).battery = some (t ++ " mAh".toList)) ∧
    ((extract_specs s).weight = none ∨
      ∃ t, containsSub t s = true ∧ (extract_specs s).weight = some (t ++ " kg".toList)) ∧
    ((extract_specs s).screen = none ∨
      ∃ t, containsSub t s = true ∧ (extract_specs s).screen = some (t ++ " inch".toList)) := by
  by_cases hs : s = []
  · subst hs
    exact ⟨Or.inl rfl, Or.inl rfl, Or.inl rfl, Or.inl rfl, Or.inl rfl, Or.inl rfl, Or.inl rfl⟩
  · simp only [extract_specs, if_neg hs]
    refine ⟨?_, ?_, ?_, ?_, ?_, ?_, ?_⟩
    · cases h : reWholeCI cpuRE s with
      | none => exact Or.inl rfl
      | some t => exact Or.inr (reWholeCI_sub cpuRE s t h)
    · cases h : reWholeCI gpuRE s with
      | none => exact Or.inl rfl
      | some t => exact Or.inr (reWholeCI_sub gpuRE s t h)
    · cases h1 : reGroupCI ramRE1 s 1 with
      | some t => exact Or.inr ⟨t, reGroupCI_sub ramRE1 s 1 t h1, rfl⟩
      | none =>
        cases h2 : reGroupCI ramRE2 s 1 with
        | none => exact Or.inl rfl
        | some t => exact Or.inr ⟨t, reGroupCI_sub ramRE2 s 1 t h2, rfl⟩
    · cases h : reWholeCI storageRE s with
      | none => exact Or.inl rfl
      | some t => exact Or.inr ⟨t, reWholeCI_sub storageRE s t h, rfl⟩
    · cases h : reGroupCI batteryRE s 1 with
      | none => exact Or.inl rfl
      | some t => exact Or.inr ⟨t, reGroupCI_sub batteryRE s 1 t h, rfl⟩
    · cases h : reGroupCI weightRE s 1 with
      | none => exact Or.inl rfl
      | some t => exact Or.inr ⟨t, reGroupCI_sub weightRE s 1 t h, rfl⟩
    · cases hm : research screenRE (pyLower s) with
      | none => exact Or.inl rfl
      | some m =>
        dsimp only
        cases h1 : m.2.2.lookup 1 with
        | some sp =>
          exact Or.inr ⟨regroup s sp.1 sp.2, containsSub_slice s sp.1 (sp.2 - sp.1), rfl⟩
        | none =>
          cases h2 : m.2.2.lookup 2 with
          | none => exact Or.inl rfl
          | some sp =>
            exact Or.inr ⟨regroup s sp.1 sp.2, containsSub_slice s sp.1 (sp.2 - sp.1), rfl⟩

/-! ## Claim C9: the OFFICE weight rule -/

def rC9 : SearchResult :=
  { id := "c9".toList, name := some "Dell XPS 13".toList,
    category_name := some "Laptop".toList, spec_text := some "2.5 kg".toList }

def rC9w : SearchResult :=
  { id := "c9w".toList, name := some "LG Gram 14".toList,
    category_name := some "Laptop".toList, spec_text := some "weight 1.5 kg".toList }

/-- Claim C9 counterexample: a laptop-class candidate whose spec text
is "2.5 kg" — from which the spec extractor extracts a weight of
2.5 kg, not below 2.0 — is nevertheless admitted by the OFFICE filter,
because the filter's own pattern requires the literal word "weight"
before the figure. -/
theorem office_filter_weight_cex :
    filter_results [] [rC9] "OFFICE" = [rC9] ∧
    (extract_specs "2.5 kg".toList).weight = some "2.5 kg".toList ∧
    (2 : ℚ) ≤ parseDec "2.5".toList := by
  refine ⟨by rfl, by rfl, by decide⟩

/-- Claim C9 (amended): every candidate admitted under OFFICE has a
laptop-class category and no "gaming" marker in its name or category,
and whenever the filter's own weight pattern
(`weight\D*(\d+\.?\d*)\s*kg`, requiring the literal word "weight")
matches the normalized spec text, the parsed figure is below 2.0; a
weight that is extractable only by the spec extractor's barer pattern
does not cause the candidate to be dropped. -/
theorem office_filter_admits (q : Str) (rs : List SearchResult) (r : SearchResult)
    (hr : r ∈ filter_results q rs "OFFICE") :
    hasAny laptopCats (normalize_for_match (r.category_name.getD [])) = true ∧
    containsSub "gaming".toList (normalize_for_match (r.name.getD [])) = false ∧
    containsSub "gaming".toList (normalize_for_match (r.category_name.getD [])) = false ∧
    (∀ w, reGroup officeWeightRE (normalize_for_match (r.spec_text.getD [])) 1 = some w →
      parseDec w < 2) := by
  have h := (List.mem_filter.mp hr).2
  simp only [filterPred] at h
  rw [if_neg (show ¬("OFFICE" = "PHONE") by decide),
      if_neg (show ¬("OFFICE" = "TABLET") by decide),
      if_neg (show ¬("OFFICE" = "ACCESSORY") by decide),
      if_neg (show ¬("OFFICE" = "LAPTOP") by decide),
      if_neg (show ¬("OFFICE" = "GAMING") by decide)] at h
  simp only [if_true] at h
  simp only [Bool.and_eq_true] at h
  obtain ⟨⟨hA, hB⟩, hC⟩ := h
  have hB2 : containsSub "gaming".toList (normalize_for_match (r.name.getD [])) = false ∧
      containsSub "gaming".toList (normalize_for_match (r.category_name.getD [])) = false := by
    simpa using hB
  refine ⟨hA, hB2.1, hB2.2, ?_⟩
  intro w hw
  simp only [hw] at hC
  have hnle : ¬ ((2 : ℚ) ≤ parseDec w) := by simpa using hC
  exact lt_of_not_le hnle

/-- Witness for C9's amended theorem: a light laptop with
"weight 1.5 kg" in its spec text passes the OFFICE filter, and its
parsed weight is below 2. -/
theorem office_filter_admits_witness :
    hasAny laptopCats (normalize_for_match (rC9w.category_name.getD [])) = true ∧
    parseDec "1.5".toList < 2 :=
  ⟨(office_filter_admits [] [rC9w] rC9w (by decide)).1,
   (office_filter_admits [] [rC9w] rC9w (by decide)).2.2.2 "1.5".toList (by rfl)⟩

/-! ## Claim C4: bounded, duplicate-free results -/

theorem addIf_length (pred : SearchResult → Bool) (pool : List SearchResult) :
    ∀ acc seen needed, (addIf pred pool acc seen needed).length ≤ acc.length + needed := by
  induction pool with
  | nil => intro acc seen needed; simp [addIf]
  | cons r rest ih =>
    intro acc seen needed
    simp only [addIf]
    by_cases h0 : needed = 0
    · simp [h0]
    · rw [if_neg h0]
      by_cases hseen : seen.contains r.id
      · rw [if_pos hseen]; exact ih acc seen needed
      · rw [if_neg hseen]
        by_cases hpred : pred r
        · rw [if_pos hpred]
          calc (addIf pred rest (acc ++ [r]) (r.id :: seen) (needed - 1)).length
              ≤ (acc ++ [r]).length + (needed - 1) := ih _ _ _
            _ ≤ acc.length + needed := by simp; omega
        · rw [if_neg hpred]; exact ih acc seen needed

theorem addIf_nodup (pred : SearchResult → Bool) (pool : List SearchResult) :
    ∀ acc seen needed, ((acc.map (fun r => r.id)).Nodup) →
      (∀ x ∈ acc.map (fun r => r.id), x ∈ seen) →
      ((addIf pred pool acc seen needed).map (fun r => r.id)).Nodup := by
  induction pool with
  | nil => intro acc seen needed hnd _; simpa [addIf] using hnd
  | cons r rest ih =>
    intro acc seen needed hnd hsub
    simp only [addIf]
    by_cases h0 : needed = 0
    · simpa [h0] using hnd
    · rw [if_neg h0]
      by_cases hseen : seen.contains r.id
      · rw [if_pos hseen]; exact ih acc seen needed hnd hsub
      · rw [if_neg hseen]
        by_cases hpred : pred r
        · rw [if_pos hpred]
          apply ih
          · rw [List.map_append]
            refine List.nodup_append.mpr ⟨hnd, by simp, ?_⟩
            intro x hx hx2
            simp at hx2
            subst hx2
            exact hseen (by simpa using hsub _ hx)
          · intro x hx
            rw [List.map_append] at hx
            rcases List.mem_append.mp hx with hx | hx
            · exact List.mem_cons_of_mem _ (hsub _ hx)
            · simp at hx
              simp [hx]
        · rw [if_neg hpred]; exact ih acc seen needed hnd hsub

theorem insDesc_perm (key : SearchResult → ℚ) (x : SearchResult) (l : List SearchResult) :
    List.Perm (insDesc key x l) (x :: l) := by
  induction l with
  | nil => simp [insDesc]
  | cons y ys ih =>
    simp only [insDesc]
    by_cases h : key y < key x
    · rw [if_pos h]
    · rw [if_neg h]
      exact (List.Perm.cons y ih).trans (List.Perm.swap x y ys)

theorem sortDesc_perm (key : SearchResult → ℚ) (l : List SearchResult) :
    List.Perm (sortDesc key l) l := by
  induction l with
  | nil => simp [sortDesc]
  | cons x xs ih =>
    exact (insDesc_perm key x (sortDesc key xs)).trans (List.Perm.cons x ih)

theorem search_ok_shape (cfg : Config) (embed : Str → List ℚ)
    (store : List ℚ → Int → List SearchResult) (cross : Option (Str → Str → ℚ))
    (req : SearchRequest) (resp : SearchResponse)
    (h : search cfg embed store cross req = .ok resp) :
    resp.results.length ≤ req.top_k.toNat ∧
    ((∀ v k, ((store v k).map (fun r => r.id)).Nodup) →
      (resp.results.map (fun r => r.id)).Nodup) := by
  simp only [search] at h
  by_cases hq : pyStrip req.query = []
  · rw [if_pos hq] at h; exact Except.noConfusion h
  · rw [if_neg hq] at h
    have h2 := Except.ok.inj h
    subst h2
    refine ⟨List.length_take_le _ _, ?_⟩
    intro hst
    apply List.Nodup.sublist (List.Sublist.map _ (List.take_sublist _ _))
    by_cases hr : cfg.enableRerank = true
    · rw [if_pos hr]
      cases cross with
      | none => exact hst _ _
      | some ce =>
        dsimp only
        by_cases hnil :
            store (embed (normalize_for_embed (pyStrip req.query))) (poolSize cfg req.top_k) = []
        · rw [if_pos hnil]; exact hst _ _
        · rw [if_neg hnil]
          refine (List.Perm.nodup_iff
            ((sortDesc_perm rerankKey _).map (fun r => r.id))).mpr ?_
          rw [List.map_map]
          exact hst _ _
    · rw [if_neg hr]; exact hst _ _

theorem chatFinal_length_le (query : Str) (intent : String) (tkn : Nat)
    (pool : List SearchResult) : (chatFinal query intent tkn pool).length ≤ tkn := by
  simp only [chatFinal]
  set final0 := (filter_results query pool intent).take tkn with hf0
  have h0len : final0.length ≤ tkn := List.length_take_le _ _
  by_cases hlt : final0.length < tkn
  · rw [if_pos hlt]
    cases hbp : backfillPred intent with
    | none => exact h0len
    | some pred =>
      calc (addIf pred pool final0 (final0.map (fun r => r.id)) (tkn - final0.length)).length
          ≤ final0.length + (tkn - final0.length) := addIf_length _ _ _ _ _
        _ ≤ tkn := by omega
  · rw [if_neg hlt]
    exact h0len

theorem chatFinal_nodup (query : Str) (intent : String) (tkn : Nat)
    (pool : List SearchResult) (hnd : (pool.map (fun r => r.id)).Nodup) :
    ((chatFinal query intent tkn pool).map (fun r => r.id)).Nodup := by
  simp only [chatFinal]
  set final0 := (filter_results query pool intent).take tkn with hf0
  have hsub : List.Sublist final0 pool :=
    (List.take_sublist _ _).trans (List.filter_sublist _)
  have h0nd : (final0.map (fun r => r.id)).Nodup :=
    List.Nodup.sublist (List.Sublist.map _ hsub) hnd
  by_cases hlt : final0.length < tkn
  · rw [if_pos hlt]
    cases hbp : backfillPred intent with
    | none => exact h0nd
    | some pred => exact addIf_nodup pred pool final0 _ _ h0nd (fun x hx => hx)
  · rw [if_neg hlt]
    exact h0nd

/-- When the pool carries pairwise distinct identifiers, `add_if` fills
exactly `min needed E` slots, where `E` counts the eligible pool
entries not already seen. -/
theorem addIf_length_eq (pred : SearchResult → Bool) :
    ∀ (pool acc : List SearchResult) (seen : List Str) (needed : Nat),
      ((pool.map (fun r => r.id)).Nodup) →
      (addIf pred pool acc seen needed).length =
        acc.length +
          min needed (pool.filter (fun r => pred r && !(seen.contains r.id))).length := by
  intro pool
  induction pool with
  | nil => intro acc seen needed _; simp [addIf]
  | cons r rest ih =>
    intro acc seen needed hnd
    rw [List.map_cons] at hnd
    have hndr : ((rest.map (fun r => r.id)).Nodup) := (List.nodup_cons.mp hnd).2
    have hrid : r.id ∉ rest.map (fun r => r.id) := (List.nodup_cons.mp hnd).1
    simp only [addIf]
    by_cases h0 : needed = 0
    · subst h0
      simp
    · rw [if_neg h0]
      by_cases hseen : seen.contains r.id
      · rw [if_pos hseen]
        have hmem : r.id ∈ seen := by simpa using hseen
        have hpr : ¬ ((fun x => pred x && !(seen.contains x.id)) r = true) := by
          simp [hmem]
        have hfc : (r :: rest).filter (fun x => pred x && !(seen.contains x.id)) =
            rest.filter (fun x => pred x && !(seen.contains x.id)) :=
          List.filter_cons_of_neg hpr
        rw [ih acc seen needed hndr, hfc]
      · rw [if_neg hseen]
        by_cases hpred : pred r
        · rw [if_pos hpred]
          rw [ih (acc ++ [r]) (r.id :: seen) (needed - 1) hndr]
          have hfeq : rest.filter (fun x => pred x && !((r.id :: seen).contains x.id)) =
              rest.filter (fun x => pred x && !(seen.contains x.id)) := by
            apply List.filter_congr
            intro x hx
            have hne : ¬ (x.id == r.id) = true := by
              intro hb
              exact hrid (eq_of_beq hb ▸ List.mem_map_of_mem _ hx)
            simp only [List.contains_cons]
            rw [Bool.eq_false_iff.mpr hne]
            simp
          have hpr : ((fun x => pred x && !(seen.contains x.id)) r = true) := by
            simp only [Bool.and_eq_true, Bool.not_eq_true', hpred, true_and]
            exact Bool.eq_false_iff.mpr hseen
          have hfc : (r :: rest).filter (fun x => pred x && !(seen.contains x.id)) =
              r :: rest.filter (fun x => pred x && !(seen.contains x.id)) :=
            List.filter_cons_of_pos hpr
          rw [hfeq, hfc, List.length_cons, List.length_append]
          simp only [List.length_cons, List.length_nil]
          omega
        · rw [if_neg hpred]
          have hpr : ¬ ((fun x => pred x && !(seen.contains x.id)) r = true) := by
            simp [hpred]
          have hfc : (r :: rest).filter (fun x => pred x && !(seen.contains x.id)) =
              rest.filter (fun x => pred x && !(seen.contains x.id)) :=
            List.filter_cons_of_neg hpr
          rw [ih acc seen needed hndr, hfc]

/-- When the pool carries distinct identifiers, the final chat list has
length exactly `min tkn (available-after-backfill)`. -/
theorem chatFinal_length_eq (query : Str) (intent : String) (tkn : Nat)
    (pool : List SearchResult) (hnd : (pool.map (fun r => r.id)).Nodup) :
    (chatFinal query intent tkn pool).length =
      min tkn (availableAfterBackfill query intent tkn pool) := by
  simp only [chatFinal, availableAfterBackfill]
  set filtered := filter_results query pool intent with hfil
  set final0 := filtered.take tkn with hf0
  have h0len : final0.length = min tkn filtered.length := by
    rw [hf0]
    exact List.length_take _ _
  by_cases hlt : final0.length < tkn
  · rw [if_pos hlt]
    cases hbp : backfillPred intent with
    | none => exact h0len
    | some pred =>
      dsimp only
      rw [addIf_length_eq pred pool final0 (final0.map (fun r => r.id))
        (tkn - final0.length) hnd]
      omega
  · rw [if_neg hlt]
    cases hbp : backfillPred intent with
    | none => exact h0len
    | some pred =>
      dsimp only
      omega

/-- Every successful chat reply either came from the guardrail branch
(empty context) or its context is exactly the filter-and-backfill
result over the retrieved pool. -/
theorem chat_ok_context (cfg : Config) (embed : Str → List ℚ)
    (store : List ℚ → Int → List SearchResult) (cross : Option (Str → Str → ℚ))
    (req : ChatRequest) (resp : ChatResponse) (n : Nat)
    (hchat : chat cfg embed store cross req = .ok (resp, n)) :
    ((is_out_of_domain req.query).isSome = true ∧ resp.context = []) ∨
    (is_out_of_domain req.query = none ∧
      ∃ sres, search cfg embed store cross
          { query := req.query, top_k := max (req.top_k * 4) 20 } = .ok sres ∧
        resp.context =
          chatFinal req.query (detect_intent req.query) req.top_k.toNat sres.results) := by
  simp only [chat] at hchat
  cases hood : is_out_of_domain req.query with
  | some l =>
    rw [hood] at hchat
    dsimp only at hchat
    have h2 := Except.ok.inj hchat
    obtain ⟨h3, _⟩ := Prod.mk.inj h2
    left
    refine ⟨rfl, ?_⟩
    rw [← h3]
  | none =>
    rw [hood] at hchat
    dsimp only at hchat
    by_cases hcond : 1 ≤ req.query.length ∧ 1 ≤ max (req.top_k * 4) 20 ∧
        max (req.top_k * 4) 20 ≤ 20
    · rw [if_pos hcond] at hchat
      cases hs : search cfg embed store cross
          { query := req.query, top_k := max (req.top_k * 4) 20 } with
      | error e =>
        rw [hs] at hchat
        exact Except.noConfusion hchat
      | ok sres =>
        rw [hs] at hchat
        dsimp only at hchat
        right
        refine ⟨rfl, sres, rfl, ?_⟩
        by_cases hemp :
            chatFinal req.query (detect_intent req.query) req.top_k.toNat sres.results = []
        · rw [if_pos hemp] at hchat
          have h2 := Except.ok.inj hchat
          obtain ⟨h3, _⟩ := Prod.mk.inj h2
          rw [← h3, hemp]
        · rw [if_neg hemp] at hchat
          have h2 := Except.ok.inj hchat
          obtain ⟨h3, _⟩ := Prod.mk.inj h2
          rw [← h3]
    · rw [if_neg hcond] at hchat
      exact Except.noConfusion hchat

/-- Claim C4: Search returns at most `top_k` results and the Chat
context never exceeds `top_k`, both unconditionally; moreover, when the
vector store returns rows with pairwise distinct identifiers, the Chat
context contains no repeated candidate identifier even when the
backfill pass runs, and on the retrieval path its length is exactly
`min(top_k, available-after-backfill)`, the available count being the
filtered candidates plus the relaxed-eligible not-yet-selected ones. -/
theorem results_bounded_nodup :
    (∀ cfg embed store cross req resp,
      search cfg embed store cross req = .ok resp →
      resp.results.length ≤ req.top_k.toNat) ∧
    (∀ cfg embed store cross req resp n,
      chat cfg embed store cross req = .ok (resp, n) →
      resp.context.length ≤ req.top_k.toNat) ∧
    (∀ cfg embed store cross req resp n,
      (∀ (v : List ℚ) (k : Int), ((store v k).map (fun r => r.id)).Nodup) →
      chat cfg embed store cross req = .ok (resp, n) →
      (resp.context.map (fun r => r.id)).Nodup) ∧
    (∀ cfg embed store cross req resp n sres,
      (∀ (v : List ℚ) (k : Int), ((store v k).map (fun r => r.id)).Nodup) →
      is_out_of_domain req.query = none →
      search cfg embed store cross
        { query := req.query, top_k := max (req.top_k * 4) 20 } = .ok sres →
      chat cfg embed store cross req = .ok (resp, n) →
      resp.context.length =
        min req.top_k.toNat
          (availableAfterBackfill req.query (detect_intent req.query)
            req.top_k.toNat sres.results)) := by
  refine ⟨?_, ?_, ?_, ?_⟩
  · intro cfg embed store cross req resp h
    exact (search_ok_shape cfg embed store cross req resp h).1
  · intro cfg embed store cross req resp n hchat
    rcases chat_ok_context cfg embed store cross req resp n hchat with
      ⟨_, hctx⟩ | ⟨_, sres, _, hctx⟩
    · rw [hctx]
      simp
    · rw [hctx]
      exact chatFinal_length_le _ _ _ _
  · intro cfg embed store cross req resp n hst hchat
    rcases chat_ok_context cfg embed store cross req resp n hchat with
      ⟨_, hctx⟩ | ⟨_, sres, hs, hctx⟩
    · rw [hctx]
      simp
    · rw [hctx]
      exact chatFinal_nodup _ _ _ _ ((search_ok_shape _ _ _ _ _ _ hs).2 hst)
  · intro cfg embed store cross req resp n sres hst hood hs hchat
    rcases chat_ok_context cfg embed store cross req resp n hchat with
      ⟨hsome, _⟩ | ⟨_, sres2, hs2, hctx⟩
    · rw [hood] at hsome
      simp at hsome
    · have hse : sres2 = sres := Except.ok.inj (hs2.symm.trans hs)
      rw [hctx, hse]
      exact chatFinal_length_eq _ _ _ _ ((search_ok_shape _ _ _ _ _ _ hs).2 hst)

def rW1 : SearchResult :=
  { id := "w1".toList, name := some "Laptop Dell XPS 13".toList,
    category_name := some "Laptop".toList }

def rW2 : SearchResult :=
  { id := "w2".toList, name := some "Acer Nitro 5".toList,
    category_name := some "Laptop Gaming".toList }

def stW : List ℚ → Int → List SearchResult := fun _ _ => [rW1, rW2]

def ansW : Str :=
  "Dạ, Laptop Dell XPS 13 là lựa chọn phù hợp. Giá: Liên hệ. Anh/chị có muốn xem chi tiết thông số không ạ?".toList

/-- Witness for C4 at a concrete two-candidate store with `top_k = 1`:
the chat context is duplicate-free and its length is exactly
`min(top_k, available-after-backfill)` (here `min 1 2 = 1`). -/
theorem results_bounded_nodup_witness :
    ((({ answer := ansW, context := [rW1] } : ChatResponse)).context.map
        (fun r => r.id)).Nodup ∧
    (({ answer := ansW, context := [rW1] } : ChatResponse)).context.length =
      min (1 : Int).toNat
        (availableAfterBackfill "hello".toList (detect_intent "hello".toList)
          (1 : Int).toNat [rW1, rW2]) :=
  ⟨results_bounded_nodup.2.2.1 cfgD embZ stW none ⟨"hello".toList, 1⟩
      { answer := ansW, context := [rW1] } 1
      (fun _ _ => (by decide : (([rW1, rW2]).map (fun r => r.id)).Nodup)) (by rfl),
   results_bounded_nodup.2.2.2 cfgD embZ stW none ⟨"hello".toList, 1⟩
      { answer := ansW, context := [rW1] } 1 { success := true, results := [rW1, rW2] }
      (fun _ _ => (by decide : (([rW1, rW2]).map (fun r => r.id)).Nodup))
      (by rfl) (by rfl) (by rfl)⟩

/-! ## Claim C10: idempotence of the normalizers -/

theorem lookup_mem {α β : Type} [BEq α] [LawfulBEq α] :
    ∀ (l : List (α × β)) (a : α) (b : β), l.lookup a = some b → (a, b) ∈ l := by
  intro l
  induction l with
  | nil => intro a b h; exact Option.noConfusion h
  | cons p rest ih =>
    intro a b h
    obtain ⟨k, v⟩ := p
    simp only [List.lookup] at h
    cases hak : (a == k) with
    | true =>
      rw [hak] at h
      have hk : a = k := eq_of_beq hak
      have hv : v = b := by
        have : some v = some b := h
        exact Option.some.inj this
      subst hk
      subst hv
      exact List.mem_cons_self _ _
    | false =>
      rw [hak] at h
      exact List.mem_cons_of_mem _ (ih a b h)

/-- Characters produced by the decomposition table decompose to
themselves. -/
theorem nfkdChar_closed (c : Char) : ∀ d ∈ nfkdChar c, nfkdTable.lookup d = none := by
  intro d hd
  unfold nfkdChar at hd
  cases h : nfkdTable.lookup c with
  | none =>
    rw [h] at hd
    have : d = c := by simpa using hd
    rw [this]
    exact h
  | some v =>
    rw [h] at hd
    have hm := lookup_mem _ _ _ h
    have hall : ∀ p ∈ nfkdTable, ∀ d ∈ p.2, nfkdTable.lookup d = none := by decide
    exact hall _ hm d hd

/-- Lower-casing a decomposition-free, non-combining character yields a
decomposition-free, non-combining character fixed by lower-casing. -/
theorem pyLowerChar_good (c : Char) (hfree : nfkdTable.lookup c = none)
    (hcomb : pyCombining c = false) :
    nfkdTable.lookup (pyLowerChar c) = none ∧
    pyCombining (pyLowerChar c) = false ∧
    pyLowerChar (pyLowerChar c) = pyLowerChar c := by
  unfold pyLowerChar
  cases hv : vietLowerTable.lookup c with
  | some v =>
    exfalso
    have hm := lookup_mem _ _ _ hv
    have hkeys : ∀ p ∈ vietLowerTable, ¬ nfkdTable.lookup p.1 = none := by decide
    exact hkeys _ hm hfree
  | none =>
    cases ha : asciiLowerTable.lookup c with
    | some v =>
      have hm := lookup_mem _ _ _ ha
      have hvals : ∀ p ∈ asciiLowerTable, nfkdTable.lookup p.2 = none ∧
          pyCombining p.2 = false ∧ vietLowerTable.lookup p.2 = none ∧
          asciiLowerTable.lookup p.2 = none := by decide
      obtain ⟨h1, h2, h3, h4⟩ := hvals _ hm
      refine ⟨h1, h2, ?_⟩
      show pyLowerChar v = v
      unfold pyLowerChar
      rw [h3, h4]
    | none =>
      refine ⟨hfree, hcomb, ?_⟩
      show pyLowerChar c = c
      unfold pyLowerChar
      rw [hv, ha]

/-- Lower-casing is idempotent on every character. -/
theorem pyLowerChar_idem (c : Char) : pyLowerChar (pyLowerChar c) = pyLowerChar c := by
  unfold pyLowerChar
  cases hv : vietLowerTable.lookup c with
  | some v =>
    have hm := lookup_mem _ _ _ hv
    have h : ∀ p ∈ vietLowerTable, vietLowerTable.lookup p.2 = none ∧
        asciiLowerTable.lookup p.2 = none := by decide
    obtain ⟨h1, h2⟩ := h _ hm
    show pyLowerChar v = v
    unfold pyLowerChar
    rw [h1, h2]
  | none =>
    cases ha : asciiLowerTable.lookup c with
    | some v =>
      have hm := lookup_mem _ _ _ ha
      have h : ∀ p ∈ asciiLowerTable, vietLowerTable.lookup p.2 = none ∧
          asciiLowerTable.lookup p.2 = none := by decide
      obtain ⟨h1, h2⟩ := h _ hm
      show pyLowerChar v = v
      unfold pyLowerChar
      rw [h1, h2]
    | none =>
      show pyLowerChar c = c
      unfold pyLowerChar
      rw [hv, ha]

theorem flatMap_id_of_single (f : Char → Str) :
    ∀ (l : Str), (∀ c ∈ l, f c = [c]) → l.flatMap f = l := by
  intro l
  induction l with
  | nil => intro _; rfl
  | cons c rest ih =>
    intro h
    rw [List.flatMap_cons, h c (List.mem_cons_self _ _),
        ih (fun d hd => h d (List.mem_cons_of_mem _ hd))]
    rfl

theorem normalize_for_match_idem (s : Str) :
    normalize_for_match (normalize_for_match s) = normalize_for_match s := by
  unfold normalize_for_match
  set t := (nfkd s).filter (fun c => !(pyCombining c)) with ht
  have htprops : ∀ d ∈ t, nfkdTable.lookup d = none ∧ pyCombining d = false := by
    intro d hd
    rw [ht] at hd
    have hd2 := List.mem_filter.mp hd
    refine ⟨?_, by simpa using hd2.2⟩
    obtain ⟨c, _, hdc⟩ := List.mem_flatMap.mp hd2.1
    exact nfkdChar_closed c d hdc
  have hchars : ∀ m ∈ pyLower t, nfkdChar m = [m] ∧ pyCombining m = false ∧
      pyLowerChar m = m := by
    intro m hm
    obtain ⟨d, hd, hmd⟩ := List.mem_map.mp hm
    obtain ⟨h1, h2⟩ := htprops d hd
    obtain ⟨g1, g2, g3⟩ := pyLowerChar_good d h1 h2
    rw [← hmd]
    exact ⟨by unfold nfkdChar; rw [g1], g2, g3⟩
  rw [show nfkd (pyLower t) = pyLower t from
    flatMap_id_of_single _ _ (fun c hc => (hchars c hc).1)]
  rw [List.filter_eq_self.mpr (fun a ha => by simp [(hchars a ha).2.1])]
  unfold pyLower
  rw [List.map_map]
  exact List.map_congr_left (fun a ha => pyLowerChar_idem a)

/-- "Every character the list ends with is non-space." -/
def lastNotSpace (l : Str) : Prop := ∀ c, l.getLast? = some c → pyIsSpace c = false

/-- "Every character the list starts with is non-space." -/
def headNotSpace (l : Str) : Prop := ∀ c, l.head? = some c → pyIsSpace c = false

theorem trimEnd_pre : ∀ l : Str, List.IsPrefix (trimEnd l) l := by
  intro l
  induction l with
  | nil => exact List.prefix_refl _
  | cons c rest ih =>
    rw [trimEnd]
    cases h : trimEnd rest with
    | nil =>
      by_cases hsp : pyIsSpace c
      · rw [if_pos hsp]; exact List.nil_prefix
      · rw [if_neg hsp]; exact ⟨rest, rfl⟩
    | cons r rs =>
      rw [h] at ih
      exact (List.prefix_cons_inj c).mpr ih

theorem trimEnd_lastNotSpace : ∀ l : Str, lastNotSpace (trimEnd l) := by
  intro l
  induction l with
  | nil => intro c h; exact Option.noConfusion h
  | cons c rest ih =>
    rw [trimEnd]
    cases h : trimEnd rest with
    | nil =>
      by_cases hsp : pyIsSpace c
      · rw [if_pos hsp]; intro d hd; exact Option.noConfusion hd
      · rw [if_neg hsp]
        intro d hd
        have hcd : c = d := by simpa using hd
        rw [← hcd]
        simpa using hsp
    | cons r rs =>
      intro d hd
      rw [h] at ih
      apply ih
      have hd2 : (c :: r :: rs).getLast? = some d := hd
      rw [List.getLast?_cons_cons] at hd2
      exact hd2

theorem trimEnd_head? : ∀ l : Str, trimEnd l = [] ∨ (trimEnd l).head? = l.head? := by
  intro l
  cases l with
  | nil => exact Or.inl rfl
  | cons c rest =>
    rw [trimEnd]
    cases h : trimEnd rest with
    | nil =>
      by_cases hsp : pyIsSpace c
      · rw [if_pos hsp]; exact Or.inl rfl
      · rw [if_neg hsp]; exact Or.inr rfl
    | cons r rs => exact Or.inr rfl

theorem trimEnd_eq_self : ∀ l : Str, lastNotSpace l → trimEnd l = l := by
  intro l
  induction l with
  | nil => intro _; rfl
  | cons c rest ih =>
    intro h
    rw [trimEnd]
    cases hr : rest with
    | nil =>
      subst hr
      have hc : pyIsSpace c = false := h c rfl
      simp [trimEnd, hc]
    | cons r rs =>
      subst hr
      have hrest : trimEnd (r :: rs) = r :: rs := by
        apply ih
        intro d hd
        apply h
        rw [List.getLast?_cons_cons]
        exact hd
      rw [hrest]

theorem dropWhile_headNotSpace (l : Str) : headNotSpace (l.dropWhile pyIsSpace) := by
  induction l with
  | nil => intro c h; exact Option.noConfusion h
  | cons c rest ih =>
    rw [List.dropWhile_cons]
    by_cases hsp : pyIsSpace c
    · rw [if_pos hsp]; exact ih
    · rw [if_neg hsp]
      intro d hd
      have hcd : c = d := by simpa using hd
      rw [← hcd]
      simpa using hsp

theorem dropWhile_eq_self_of_head (l : Str) (h : headNotSpace l) :
    l.dropWhile pyIsSpace = l := by
  cases l with
  | nil => rfl
  | cons c rest =>
    rw [List.dropWhile_cons, if_neg]
    rw [h c rfl]
    simp

theorem pyStrip_headNotSpace (l : Str) : headNotSpace (pyStrip l) := by
  unfold pyStrip
  rcases trimEnd_head? (l.dropWhile pyIsSpace) with h | h
  · rw [h]; intro c hc; exact Option.noConfusion hc
  · intro c hc
    rw [h] at hc
    exact dropWhile_headNotSpace l c hc

theorem pyStrip_fixed (l : Str) (h1 : headNotSpace l) (h2 : lastNotSpace l) :
    pyStrip l = l := by
  unfold pyStrip
  rw [dropWhile_eq_self_of_head l h1, trimEnd_eq_self l h2]

theorem pyStrip_idem (l : Str) : pyStrip (pyStrip l) = pyStrip l :=
  pyStrip_fixed _ (pyStrip_headNotSpace l) (trimEnd_lastNotSpace _)

theorem pyStrip_sublist (l : Str) : List.Sublist (pyStrip l) l :=
  (trimEnd_pre _).sublist.trans (List.dropWhile_sublist _)

theorem pyStrip_chain {R : Char → Char → Prop} (l : Str) (h : List.Chain' R l) :
    List.Chain' R (pyStrip l) :=
  List.Chain'.prefix (h.suffix (List.dropWhile_suffix _)) (trimEnd_pre _)

theorem collapse_head : ∀ (a : Char) (rest : Str),
    ∃ ys, collapseWs (a :: rest) = (if pyIsSpace a then ' ' else a) :: ys
  | a, [] => by
    rw [collapseWs]
    by_cases h : pyIsSpace a
    · exact ⟨[], by rw [if_pos h, if_pos h]⟩
    · exact ⟨[], by rw [if_neg h, if_neg h]⟩
  | a, b :: rest => by
    by_cases hab : pyIsSpace a && pyIsSpace b
    · obtain ⟨hsa, hsb⟩ : pyIsSpace a = true ∧ pyIsSpace b = true := by simpa using hab
      obtain ⟨ys, hys⟩ := collapse_head b rest
      rw [collapseWs, if_pos hab, hys]
      exact ⟨ys, by rw [if_pos hsb, if_pos hsa]⟩
    · rw [collapseWs, if_neg hab]
      exact ⟨collapseWs (b :: rest), rfl⟩

theorem collapse_chars : ∀ (l : Str), ∀ c ∈ collapseWs l, c ∈ l ∨ c = ' '
  | [] => by intro c hc; simp [collapseWs] at hc
  | [a] => by
    intro c hc
    rw [collapseWs] at hc
    by_cases h : pyIsSpace a
    · rw [if_pos h] at hc
      exact Or.inr (by simpa using hc)
    · rw [if_neg h] at hc
      exact Or.inl hc
  | a :: b :: rest => by
    intro c hc
    rw [collapseWs] at hc
    by_cases hab : pyIsSpace a && pyIsSpace b
    · rw [if_pos hab] at hc
      rcases collapse_chars (b :: rest) c hc with h | h
      · exact Or.inl (List.mem_cons_of_mem _ h)
      · exact Or.inr h
    · rw [if_neg hab] at hc
      rcases List.mem_cons.mp hc with h | h
      · by_cases ha : pyIsSpace a
        · rw [if_pos ha] at h
          exact Or.inr h
        · rw [if_neg ha] at h
          exact Or.inl (by rw [h]; exact List.mem_cons_self _ _)
      · rcases collapse_chars (b :: rest) c h with h2 | h2
        · exact Or.inl (List.mem_cons_of_mem _ h2)
        · exact Or.inr h2

theorem collapse_space_blank :
    ∀ (l : Str), ∀ c ∈ collapseWs l, pyIsSpace c = true → c = ' '
  | [] => by intro c hc; simp [collapseWs] at hc
  | [a] => by
    intro c hc hsp
    rw [collapseWs] at hc
    by_cases h : pyIsSpace a
    · rw [if_pos h] at hc
      simpa using hc
    · rw [if_neg h] at hc
      have : c = a := by simpa using hc
      rw [this] at hsp
      rw [hsp] at h
      exact absurd rfl h
  | a :: b :: rest => by
    intro c hc hsp
    rw [collapseWs] at hc
    by_cases hab : pyIsSpace a && pyIsSpace b
    · rw [if_pos hab] at hc
      exact collapse_space_blank (b :: rest) c hc hsp
    · rw [if_neg hab] at hc
      rcases List.mem_cons.mp hc with h | h
      · by_cases ha : pyIsSpace a
        · rw [if_pos ha] at h
          exact h
        · rw [if_neg ha] at h
          rw [h] at hsp
          rw [hsp] at ha
          exact absurd rfl ha
      · exact collapse_space_blank (b :: rest) c h hsp

/-- No two adjacent whitespace characters. -/
def noSS (a b : Char) : Prop := ¬(pyIsSpace a = true ∧ pyIsSpace b = true)

theorem collapse_chain {R : Char → Char → Prop}
    (hsp1 : ∀ x, R x ' ') (hsp2 : ∀ x, R ' ' x) :
    ∀ (l : Str), List.Chain' R l → List.Chain' R (collapseWs l)
  | [] => by intro _; simp [collapseWs]
  | [a] => by
    intro _
    rw [collapseWs]
    by_cases h : pyIsSpace a <;> simp [h]
  | a :: b :: rest => by
    intro h
    have htail : List.Chain' R (b :: rest) := (List.chain'_cons.mp h).2
    have hRab : R a b := (List.chain'_cons.mp h).1
    rw [collapseWs]
    by_cases hab : pyIsSpace a && pyIsSpace b
    · rw [if_pos hab]
      exact collapse_chain hsp1 hsp2 (b :: rest) htail
    · rw [if_neg hab]
      apply List.chain'_cons'.mpr
      refine ⟨?_, collapse_chain hsp1 hsp2 (b :: rest) htail⟩
      intro y hy
      obtain ⟨ys, hys⟩ := collapse_head b rest
      rw [hys] at hy
      have hyy : (if pyIsSpace b then ' ' else b) = y := by simpa using hy
      by_cases ha : pyIsSpace a
      · rw [if_pos ha]
        exact hsp2 _
      · rw [if_neg ha, ← hyy]
        by_cases hb : pyIsSpace b
        · rw [if_pos hb]
          exact hsp1 a
        · rw [if_neg hb]
          exact hRab

theorem collapse_noSS : ∀ (l : Str), List.Chain' noSS (collapseWs l)
  | [] => by simp [collapseWs]
  | [a] => by
    rw [collapseWs]
    by_cases h : pyIsSpace a <;> simp [h]
  | a :: b :: rest => by
    rw [collapseWs]
    by_cases hab : pyIsSpace a && pyIsSpace b
    · rw [if_pos hab]
      exact collapse_noSS (b :: rest)
    · rw [if_neg hab]
      apply List.chain'_cons'.mpr
      refine ⟨?_, collapse_noSS (b :: rest)⟩
      intro y hy
      obtain ⟨ys, hys⟩ := collapse_head b rest
      rw [hys] at hy
      have hyy : (if pyIsSpace b then ' ' else b) = y := by simpa using hy
      rintro ⟨hx, hy2⟩
      rw [← hyy] at hy2
      by_cases ha : pyIsSpace a
      · by_cases hb : pyIsSpace b
        · exact hab (by simp [ha, hb])
        · rw [if_neg hb] at hy2
          rw [hy2] at hb
          exact absurd rfl hb
      · rw [if_neg ha] at hx
        rw [hx] at ha
        exact absurd rfl ha

theorem collapse_fixed : ∀ (l : Str),
    (∀ c ∈ l, pyIsSpace c = true → c = ' ') → List.Chain' noSS l → collapseWs l = l
  | [] => by intro _ _; rfl
  | [a] => by
    intro h1 _
    rw [collapseWs]
    by_cases h : pyIsSpace a
    · rw [if_pos h, h1 a (by simp) h]
    · rw [if_neg h]
  | a :: b :: rest => by
    intro h1 h2
    rw [collapseWs]
    have hnoss : ¬(pyIsSpace a = true ∧ pyIsSpace b = true) := (List.chain'_cons.mp h2).1
    rw [if_neg (fun hh => hnoss (by simpa using hh))]
    have htl : collapseWs (b :: rest) = b :: rest :=
      collapse_fixed (b :: rest) (fun c hc hs => h1 c (List.mem_cons_of_mem _ hc) hs)
        (List.chain'_cons.mp h2).2
    rw [htl]
    by_cases h : pyIsSpace a
    · rw [if_pos h, h1 a (by simp) h]
    · rw [if_neg h]

theorem lookup_ne_none_of_mem {α β : Type} [BEq α] [LawfulBEq α] :
    ∀ (l : List (α × β)) (a : α) (b : β), (a, b) ∈ l → ¬ l.lookup a = none := by
  intro l
  induction l with
  | nil => intro a b h; exact absurd h (List.not_mem_nil _)
  | cons p rest ih =>
    intro a b h hn
    obtain ⟨k, v⟩ := p
    simp only [List.lookup] at hn
    cases hak : (a == k) with
    | true => rw [hak] at hn; exact Option.noConfusion hn
    | false =>
      rw [hak] at hn
      rcases List.mem_cons.mp h with he | hm
      · have : a = k := congrArg Prod.fst he
        rw [this] at hak
        simp at hak
      · exact ih a b hm hn

theorem nfc_head : ∀ (x : Char) (xs : Str), ∃ y ys, nfcRun (x :: xs) = y :: ys ∧
    (y = x ∨ ∃ p ∈ composeTable, p.2 = y)
  | x, [] => ⟨x, [], by rw [nfcRun], Or.inl rfl⟩
  | x, b :: rest => by
    rw [nfcRun]
    cases hc : composePair x b with
    | none => exact ⟨x, nfcRun (b :: rest), rfl, Or.inl rfl⟩
    | some c =>
      obtain ⟨y, ys, heq, hy⟩ := nfc_head c rest
      refine ⟨y, ys, heq, ?_⟩
      rcases hy with h | h
      · exact Or.inr ⟨((x, b), c), lookup_mem _ _ _ hc, h.symm⟩
      · exact Or.inr h

theorem nfc_chain : ∀ (l : Str),
    List.Chain' (fun a b => composePair a b = none) (nfcRun l)
  | [] => by simp [nfcRun]
  | [a] => by rw [nfcRun]; simp
  | a :: b :: rest => by
    rw [nfcRun]
    cases hc : composePair a b with
    | some c => exact nfc_chain (c :: rest)
    | none =>
      apply List.chain'_cons'.mpr
      refine ⟨?_, nfc_chain (b :: rest)⟩
      intro y hy
      obtain ⟨y2, ys, heq, hor⟩ := nfc_head b rest
      rw [heq] at hy
      have hyy : y2 = y := by simpa using hy
      rcases hor with h | ⟨p, hp, hpy⟩
      · rw [← hyy, h]
        exact hc
      · cases hay : composePair a y with
        | none => rfl
        | some v =>
          exfalso
          have hm := lookup_mem _ _ _ hay
          have hno : ∀ p ∈ composeTable, ∀ q ∈ composeTable, ¬ q.1.2 = p.2 := by decide
          exact hno p hp ((a, y), v) hm (hpy.trans hyy).symm
termination_by l => l.length
decreasing_by all_goals (simp_wf; try omega)

theorem nfc_fixed : ∀ (l : Str),
    List.Chain' (fun a b => composePair a b = none) l → nfcRun l = l
  | [] => fun _ => by rw [nfcRun]
  | [a] => fun _ => by rw [nfcRun]
  | a :: b :: rest => fun h => by
    rw [nfcRun]
    have h1 := (List.chain'_cons.mp h).1
    rw [h1, nfc_fixed (b :: rest) (List.chain'_cons.mp h).2]

theorem composePair_space_left (x : Char) : composePair ' ' x = none := by
  cases h : composePair ' ' x with
  | none => rfl
  | some v =>
    have hm := lookup_mem _ _ _ h
    have hall : ∀ p ∈ composeTable, ¬ p.1.1 = ' ' := by decide
    exact absurd rfl (hall _ hm)

theorem composePair_space_right (x : Char) : composePair x ' ' = none := by
  cases h : composePair x ' ' with
  | none => rfl
  | some v =>
    have hm := lookup_mem _ _ _ h
    have hall : ∀ p ∈ composeTable, ¬ p.1.2 = ' ' := by decide
    exact absurd rfl (hall _ hm)

theorem pyLowerChar_cases (b : Char) :
    (∃ w, (b, w) ∈ vietLowerTable ∧ pyLowerChar b = w) ∨
    (∃ w, (b, w) ∈ asciiLowerTable ∧ pyLowerChar b = w) ∨
    pyLowerChar b = b := by
  unfold pyLowerChar
  cases hv : vietLowerTable.lookup b with
  | some w => exact Or.inl ⟨w, lookup_mem _ _ _ hv, rfl⟩
  | none =>
    cases ha : asciiLowerTable.lookup b with
    | some w => exact Or.inr (Or.inl ⟨w, lookup_mem _ _ _ ha, rfl⟩)
    | none => exact Or.inr (Or.inr rfl)

/-- Lower-casing cannot create a composable pair where there was none:
the composition table is case-symmetric. -/
theorem composePair_lower (a b : Char) (h : composePair a b = none) :
    composePair (pyLowerChar a) (pyLowerChar b) = none := by
  cases hc : composePair (pyLowerChar a) (pyLowerChar b) with
  | none => rfl
  | some v =>
    exfalso
    have hm := lookup_mem _ _ _ hc
    have fb_viet : ∀ q ∈ composeTable, ∀ r ∈ vietLowerTable, ¬ r.2 = q.1.2 := by decide
    have fb_ascii : ∀ q ∈ composeTable, ∀ r ∈ asciiLowerTable, ¬ r.2 = q.1.2 := by decide
    have fa_viet : ∀ q ∈ composeTable, ∀ r ∈ vietLowerTable, ¬ r.2 = q.1.1 := by decide
    have fa_ascii : ∀ q ∈ composeTable, ∀ r ∈ asciiLowerTable, r.2 = q.1.1 →
        ¬ composeTable.lookup (r.1, q.1.2) = none := by decide
    have hb : pyLowerChar b = b := by
      rcases pyLowerChar_cases b with ⟨w, hw, he⟩ | ⟨w, hw, he⟩ | he
      · exfalso
        rw [he] at hm
        exact fb_viet _ hm _ hw rfl
      · exfalso
        rw [he] at hm
        exact fb_ascii _ hm _ hw rfl
      · exact he
    rw [hb] at hm
    rcases pyLowerChar_cases a with ⟨w, hw, he⟩ | ⟨w, hw, he⟩ | he
    · rw [he] at hm
      exact fa_viet _ hm _ hw rfl
    · rw [he] at hm
      exact fa_ascii _ hm _ hw rfl h
    · rw [he] at hm
      exact lookup_ne_none_of_mem _ _ _ hm h

theorem chain_lower_pc (l : Str)
    (h : List.Chain' (fun a b => composePair a b = none) l) :
    List.Chain' (fun a b => composePair a b = none) (pyLower l) := by
  apply (List.chain'_map pyLowerChar).mpr
  exact List.Chain'.imp (fun a b hab => composePair_lower a b hab) h

theorem pyLower_id_of_fixed : ∀ (l : Str), (∀ c ∈ l, pyLowerChar c = c) → pyLower l = l
  | [] => fun _ => rfl
  | c :: rest => fun h => by
    unfold pyLower
    rw [List.map_cons, h c (List.mem_cons_self _ _)]
    have htl := pyLower_id_of_fixed rest (fun d hd => h d (List.mem_cons_of_mem _ hd))
    unfold pyLower at htl
    rw [htl]

theorem normalize_for_embed_idem (s : Str) :
    normalize_for_embed (normalize_for_embed s) = normalize_for_embed s := by
  unfold normalize_for_embed
  by_cases hs : s = []
  · rw [if_pos hs]
    simp
  · rw [if_neg hs]
    set y1 := pyLower (nfcRun s) with hy1
    set z := collapseWs y1 with hz
    set y := pyStrip z with hyy
    by_cases hynil : y = []
    · rw [if_pos hynil]
      exact hynil.symm
    · rw [if_neg hynil]
      have hch1 : List.Chain' (fun a b => composePair a b = none) y1 := by
        rw [hy1]
        exact chain_lower_pc _ (nfc_chain s)
      have hchz : List.Chain' (fun a b => composePair a b = none) z := by
        rw [hz]
        exact collapse_chain (fun x => composePair_space_right x)
          (fun x => composePair_space_left x) y1 hch1
      have hchy : List.Chain' (fun a b => composePair a b = none) y := by
        rw [hyy]
        exact pyStrip_chain z hchz
      have hmemz : ∀ c ∈ y, c ∈ z := by
        intro c hc
        rw [hyy] at hc
        exact (pyStrip_sublist z).subset hc
      have hmem : ∀ c ∈ y, pyLowerChar c = c := by
        intro c hc
        have hcz : c ∈ z := hmemz c hc
        rw [hz] at hcz
        rcases collapse_chars y1 c hcz with h1 | h1
        · rw [hy1] at h1
          obtain ⟨d, _, hdc⟩ := List.mem_map.mp h1
          rw [← hdc]
          exact pyLowerChar_idem d
        · rw [h1]
          decide
      have hnfc : nfcRun y = y := nfc_fixed y hchy
      have hlow : pyLower y = y := pyLower_id_of_fixed y hmem
      have hcol : collapseWs y = y := by
        apply collapse_fixed y
        · intro c hc hsp
          have hcz : c ∈ z := hmemz c hc
          rw [hz] at hcz
          exact collapse_space_blank y1 c hcz hsp
        · have hnz : List.Chain' noSS z := by
            rw [hz]
            exact collapse_noSS y1
          rw [hyy]
          exact pyStrip_chain z hnz
      have hst : pyStrip y = y := by
        rw [hyy]
        exact pyStrip_idem z
      rw [hnfc, hlow, hcol, hst]

/-- Claim C10: both text normalizers are idempotent — applying either
twice equals applying it once, for every input string. -/
theorem normalizers_idempotent (s : Str) :
    normalize_for_embed (normalize_for_embed s) = normalize_for_embed s ∧
    normalize_for_match (normalize_for_match s) = normalize_for_match s :=
  ⟨normalize_for_embed_idem s, normalize_for_match_idem s⟩

end Techstore
